import Mathlib

/-!
Shallow embedding of the core decoding routines of the libelfin DWARF
reader (dwarf/line.cc, dwarf/rangelist.cc, dwarf/value.cc), together with
theorems checking the natural-language specification against the code.

Machine integers are modelled as `Nat` (or `Int` for signed quantities)
with explicit reductions modulo a power of two exactly where the C
arithmetic wraps.  Fallible code returns `Except Err`.  Byte streams are
`List Nat` with every byte below 256.
-/

namespace dwarfpp

/-- The failure kinds of the decoder.  `format` models `dwarf::format_error`,
`outOfRange` models `std::out_of_range`, `typeMismatch` models
`dwarf::value_type_mismatch`, `runtimeErr` models a plain
`std::runtime_error` (used for vendor opcodes) and also stands in for
divergence when loop fuel runs out. -/
inductive Err
  | format
  | outOfRange
  | typeMismatch
  | runtimeErr
deriving DecidableEq, Repr

/-- Byte strings: each element is a byte value below 256. -/
abbrev Bytes := List Nat

/-- Reduction of an integer into an unsigned 32-bit value, as C assignment
of a signed quantity to a 32-bit unsigned register does. -/
def wrap32 (i : Int) : Nat := (i % (2 ^ 32 : Int)).toNat

/-- Reduction of an integer into an unsigned 64-bit value. -/
def wrap64 (i : Int) : Nat := (i % (2 ^ 64 : Int)).toNat

/-- Reinterpretation of an unsigned 32-bit value as signed, as the cast
`(signed)regs.line` in the source does. -/
def toS32 (n : Nat) : Int := if n < 2 ^ 31 then (n : Int) else (n : Int) - 2 ^ 32

/-- Reinterpretation of an unsigned 64-bit value as a signed 64-bit value. -/
def toS64 (n : Nat) : Int := if n < 2 ^ 63 then (n : Int) else (n : Int) - 2 ^ 64

/-- Modelled from the spec: a cursor is a section slice (here the raw byte
list of the sliced section) together with a position; the class itself
lives in internal.hh which is not part of the three provided sources. -/
structure Cursor where
  data : Bytes
  pos : Nat
deriving DecidableEq, Repr

namespace Cursor

/-- The bytes from the current position to the end of the slice. -/
def rest (c : Cursor) : Bytes := c.data.drop c.pos

/-- Modelled from the spec: `cursor::end()` is true when the position has
reached (or passed) the end of the slice. -/
def atEnd (c : Cursor) : Bool := decide (c.data.length ≤ c.pos)

/-- Modelled from the spec: read one byte; reads past the end of the slice
fail with a format error. -/
def readByte (c : Cursor) : Except Err (Nat × Cursor) :=
  match c.rest with
  | [] => .error .format
  | b :: _ => .ok (b, ⟨c.data, c.pos + 1⟩)

/-- Modelled from the spec: `fixed<T>()` for a little-endian section reads
`n` bytes, least significant first. -/
def readLE : Nat → Cursor → Except Err (Nat × Cursor)
  | 0, c => .ok (0, c)
  | n + 1, c =>
    match c.readByte with
    | .error e => .error e
    | .ok (b, c1) =>
      match readLE n c1 with
      | .error e => .error e
      | .ok (v, c2) => .ok (b % 256 + 256 * v, c2)

end Cursor

/-- The core of unsigned LEB128 decoding on a byte list: returns the decoded
value and the number of bytes consumed, or `none` when the list ends before
the terminator or more than `fuel` bytes would be needed. -/
def ulebCore : Bytes → Nat → Option (Nat × Nat)
  | _, 0 => none
  | [], _ + 1 => none
  | b :: r, fuel + 1 =>
    if b % 256 < 128 then some (b % 128, 1)
    else
      match ulebCore r fuel with
      | some (v, k) => some (b % 128 + 128 * v, k + 1)
      | none => none

/-- The core of signed LEB128 decoding: the final group is sign-extended
from its bit 6. -/
def slebCore : Bytes → Nat → Option (Int × Nat)
  | _, 0 => none
  | [], _ + 1 => none
  | b :: r, fuel + 1 =>
    if b % 256 < 128 then
      some (if b % 128 < 64 then ((b % 128 : Nat) : Int) else ((b % 128 : Nat) : Int) - 128, 1)
    else
      match slebCore r fuel with
      | some (v, k) => some (((b % 128 : Nat) : Int) + 128 * v, k + 1)
      | none => none

/-- The core of NUL-terminated string reading: returns the bytes before the
NUL and the number of bytes consumed including the NUL. -/
def cstrCore : Bytes → Option (Bytes × Nat)
  | [] => none
  | b :: r =>
    if b % 256 = 0 then some ([], 1)
    else
      match cstrCore r with
      | some (s, k) => some (b :: s, k + 1)
      | none => none

namespace Cursor

/-- Modelled from the spec: `cursor::uleb128()` reads an unsigned LEB128
value of at most 10 bytes into a 64-bit integer; excess length or running
off the slice is a format error. -/
def uleb128 (c : Cursor) : Except Err (Nat × Cursor) :=
  match ulebCore c.rest 10 with
  | some (v, k) => .ok (v % 2 ^ 64, ⟨c.data, c.pos + k⟩)
  | none => .error .format

/-- Modelled from the spec: `cursor::sleb128()` reads a signed LEB128 value
into a 64-bit signed integer. -/
def sleb128 (c : Cursor) : Except Err (Int × Cursor) :=
  match slebCore c.rest 10 with
  | some (v, k) => .ok (toS64 (wrap64 v), ⟨c.data, c.pos + k⟩)
  | none => .error .format

/-- Modelled from the spec: `cursor::string()` reads a NUL-terminated
string, advancing past the NUL. -/
def readString (c : Cursor) : Except Err (Bytes × Cursor) :=
  match cstrCore c.rest with
  | some (s, k) => .ok (s, ⟨c.data, c.pos + k⟩)
  | none => .error .format

/-- Modelled from the spec: `cursor::address()` reads a value of
`addr_size` bytes into a `taddr` (an unsigned 64-bit integer). -/
def address (addrSize : Nat) (c : Cursor) : Except Err (Nat × Cursor) :=
  readLE addrSize c

end Cursor

/-- Little-endian encoding of `v` into `n` bytes (the byte-level inverse of
`Cursor.readLE`, used to build concrete test streams). -/
def leEnc : Nat → Nat → Bytes
  | 0, _ => []
  | n + 1, v => v % 256 :: leEnc n (v / 256)

/-!  ## Range lists (dwarf/rangelist.cc)  -/

/-- Result of one `rangelist::iterator::operator++` call: either the
iterator became the end iterator, or it emitted the entry `[low, high)`
with the position of the following entry and the current base address. -/
inductive RlOut
  | atEnd
  | emit (low high posAfter base : Nat)
deriving DecidableEq, Repr

/-- The DWARF-4 branch of `rangelist::iterator::operator++`
(rangelist.cc lines 139-168): `largest_offset` starts as `~(taddr)0` and,
when `addr_size` is below the width of `taddr`, has `1 << (8 * addr_size)`
added to it (modulo 2^64), which yields the largest value representable in
`addr_size` bytes.  The shift operand `1` is a 32-bit `int`, so the C
expression is only defined for `addr_size` below 4 (shift widths 8, 16,
24); for `addr_size` 4-7 the shift is undefined behaviour, and theorems
about this definition restrict `addr_size` to 1-3 or 8 accordingly. -/
def rl4_largest (addrSize : Nat) : Nat :=
  if addrSize < 8 then (2 ^ 64 - 1 + 2 ^ (8 * addrSize)) % 2 ^ 64 else 2 ^ 64 - 1

/-- The DWARF-4 read loop of `rangelist::iterator::operator++`: read two
`addr_size`-byte words per step; `(0, 0)` ends the list, a first word equal
to `rl4_largest` replaces the base address with the second word, and any
other pair emits the pair shifted by the base address. -/
def rl4_advance (data : Bytes) (addrSize : Nat) : Nat → Nat → Nat → Except Err RlOut
  | _, _, 0 => .error .runtimeErr
  | pos, base, fuel + 1 =>
    match Cursor.address addrSize ⟨data, pos⟩ with
    | .error e => .error e
    | .ok (low, c1) =>
      match Cursor.address addrSize c1 with
      | .error e => .error e
      | .ok (high, c2) =>
        if low = 0 ∧ high = 0 then .ok .atEnd
        else if low = rl4_largest addrSize then rl4_advance data addrSize c2.pos high fuel
        else .ok (.emit ((low + base) % 2 ^ 64) ((high + base) % 2 ^ 64) c2.pos base)

/-- All entries produced by iterating a DWARF-4 range list from `pos` with
base address `base` until the end-of-list marker. -/
def rl4_collect (data : Bytes) (addrSize : Nat) : Nat → Nat → Nat → Except Err (List (Nat × Nat))
  | _, _, 0 => .error .runtimeErr
  | pos, base, fuel + 1 =>
    match rl4_advance data addrSize pos base (data.length + 1) with
    | .error e => .error e
    | .ok .atEnd => .ok []
    | .ok (.emit low high posAfter baseAfter) =>
      match rl4_collect data addrSize posAfter baseAfter fuel with
      | .error e => .error e
      | .ok rest => .ok ((low, high) :: rest)

/-- The DWARF-5 branch of `rangelist::iterator::operator++`
(rangelist.cc lines 73-138).  Tags follow the `DW_RLE` numbering:
0 end_of_list, 1 base_addressx, 2 startx_endx, 3 startx_length,
4 offset_pair, 5 base_address, 6 start_end, 7 start_length.  The code
reads and then discards the operands of `base_addressx`, `startx_endx`
and `startx_length` without emitting anything. -/
def rl5_advance (data : Bytes) (addrSize : Nat) : Nat → Nat → Nat → Except Err RlOut
  | _, _, 0 => .error .runtimeErr
  | pos, base, fuel + 1 =>
    if data.length ≤ pos then .ok .atEnd
    else
      match Cursor.readByte ⟨data, pos⟩ with
      | .error e => .error e
      | .ok (tag, c1) =>
        match tag with
        | 0 => .ok .atEnd
        | 1 =>
          match c1.uleb128 with
          | .error e => .error e
          | .ok (_, c2) => rl5_advance data addrSize c2.pos base fuel
        | 2 =>
          match c1.uleb128 with
          | .error e => .error e
          | .ok (_, c2) =>
            match c2.uleb128 with
            | .error e => .error e
            | .ok (_, c3) => rl5_advance data addrSize c3.pos base fuel
        | 3 =>
          match c1.uleb128 with
          | .error e => .error e
          | .ok (_, c2) =>
            match c2.uleb128 with
            | .error e => .error e
            | .ok (_, c3) => rl5_advance data addrSize c3.pos base fuel
        | 4 =>
          match c1.uleb128 with
          | .error e => .error e
          | .ok (lo, c2) =>
            match c2.uleb128 with
            | .error e => .error e
            | .ok (hi, c3) =>
              .ok (.emit ((base + lo) % 2 ^ 64) ((base + hi) % 2 ^ 64) c3.pos base)
        | 5 =>
          match Cursor.address addrSize c1 with
          | .error e => .error e
          | .ok (b, c2) => rl5_advance data addrSize c2.pos b fuel
        | 6 =>
          match Cursor.address addrSize c1 with
          | .error e => .error e
          | .ok (lo, c2) =>
            match Cursor.address addrSize c2 with
            | .error e => .error e
            | .ok (hi, c3) => .ok (.emit lo hi c3.pos base)
        | 7 =>
          match Cursor.address addrSize c1 with
          | .error e => .error e
          | .ok (lo, c2) =>
            match c2.uleb128 with
            | .error e => .error e
            | .ok (len, c3) => .ok (.emit lo ((lo + len) % 2 ^ 64) c3.pos base)
        | _ => .error .format

/-- All entries produced by iterating a DWARF-5 range list. -/
def rl5_collect (data : Bytes) (addrSize : Nat) : Nat → Nat → Nat → Except Err (List (Nat × Nat))
  | _, _, 0 => .error .runtimeErr
  | pos, base, fuel + 1 =>
    match rl5_advance data addrSize pos base (data.length + 1) with
    | .error e => .error e
    | .ok .atEnd => .ok []
    | .ok (.emit low high posAfter baseAfter) =>
      match rl5_collect data addrSize posAfter baseAfter fuel with
      | .error e => .error e
      | .ok rest => .ok ((low, high) :: rest)

/-!  ## DWARF forms (shared by dwarf/line.cc and dwarf/value.cc)  -/

/-- The `DW_FORM` codes used by the embedded sources, plus a carrier for
any other code. -/
inductive Form
  | addr
  | block2
  | block4
  | data2
  | data4
  | data8
  | string
  | block
  | block1
  | data1
  | flag
  | sdata
  | strp
  | udata
  | ref_addr
  | ref1
  | ref2
  | ref4
  | ref8
  | ref_udata
  | indirect
  | sec_offset
  | exprloc
  | flag_present
  | strx
  | addrx
  | data16
  | line_strp
  | ref_sig8
  | implicit_const
  | rnglistx
  | strx1
  | strx2
  | strx3
  | strx4
  | addrx1
  | addrx2
  | addrx3
  | addrx4
  | unknown (code : Nat)
deriving DecidableEq, Repr

/-- The numeric `DW_FORM` encoding (data.hh), as used by the cast
`(DW_FORM)c.uleb128()` in `value::resolve_indirect`. -/
def formOfCode (n : Nat) : Form :=
  match n with
  | 0x01 => .addr
  | 0x03 => .block2
  | 0x04 => .block4
  | 0x05 => .data2
  | 0x06 => .data4
  | 0x07 => .data8
  | 0x08 => .string
  | 0x09 => .block
  | 0x0a => .block1
  | 0x0b => .data1
  | 0x0c => .flag
  | 0x0d => .sdata
  | 0x0e => .strp
  | 0x0f => .udata
  | 0x10 => .ref_addr
  | 0x11 => .ref1
  | 0x12 => .ref2
  | 0x13 => .ref4
  | 0x14 => .ref8
  | 0x15 => .ref_udata
  | 0x16 => .indirect
  | 0x17 => .sec_offset
  | 0x18 => .exprloc
  | 0x19 => .flag_present
  | 0x1a => .strx
  | 0x1b => .addrx
  | 0x1e => .data16
  | 0x1f => .line_strp
  | 0x20 => .ref_sig8
  | 0x21 => .implicit_const
  | 0x23 => .rnglistx
  | 0x25 => .strx1
  | 0x26 => .strx2
  | 0x27 => .strx3
  | 0x28 => .strx4
  | 0x29 => .addrx1
  | 0x2a => .addrx2
  | 0x2b => .addrx3
  | 0x2c => .addrx4
  | c => .unknown c

/-!  ## Line tables (dwarf/line.cc)  -/

/-- A resolved file-name entry of the line table (`line_table::file`). -/
structure FileEntry where
  path : Bytes
  mtime : Nat
  length : Nat
deriving DecidableEq, Repr

/-- One element of the DWARF-5 entry-format descriptor
(`line_table::impl::entry_format`): a `DW_LNCT` content code
(1 path, 2 directory_index, 3 timestamp, 4 size, 5 md5) and a form. -/
structure EntryFormat where
  content : Nat
  form : Form
deriving DecidableEq, Repr

/-- The row registers of the line-number state machine
(`line_table::entry` without the resolved `file` pointer).  `address` is a
64-bit `taddr`; the other numeric registers are 32-bit `unsigned`. -/
structure Regs where
  address : Nat
  op_index : Nat
  file_index : Nat
  line : Nat
  column : Nat
  is_stmt : Bool
  basic_block : Bool
  end_sequence : Bool
  prologue_end : Bool
  epilogue_begin : Bool
  isa : Nat
  discriminator : Nat
deriving DecidableEq, Repr

/-- `line_table::entry::reset` (line.cc lines 500-511). -/
def Regs.reset (is_stmt : Bool) (default_file_index : Nat) : Regs where
  address := 0
  op_index := 0
  file_index := default_file_index
  line := 1
  column := 0
  is_stmt := is_stmt
  basic_block := false
  end_sequence := false
  prologue_end := false
  epilogue_begin := false
  isa := 0
  discriminator := 0

/-- The state of `line_table::impl`: the immutable header fields plus the
mutable file-name discovery bookkeeping.  `data` is the sliced line-table
section, `is64` its DWARF format, `addr_size` its address size.  The
`.debug_line_str` and `.debug_str` sections are `none` when no DWARF
context is available (the code then fails with a format error). -/
structure Impl where
  data : Bytes
  is64 : Bool
  addr_size : Nat
  program_offset : Nat
  version : Nat
  minimum_instruction_length : Nat
  maximum_operations_per_instruction : Nat
  default_is_stmt : Bool
  line_base : Int
  line_range : Nat
  opcode_base : Nat
  file_index_base : Nat
  comp_dir : Bytes
  include_directories : List Bytes
  file_names : List FileEntry
  file_entry_formats : List EntryFormat
  last_file_name_end : Nat
  file_names_complete : Bool
  line_str : Option Bytes
  str : Option Bytes
deriving DecidableEq, Repr

/-- The width of a section offset of this line-table section (4 bytes for
32-bit DWARF, 8 for 64-bit). -/
def Impl.offsetSize (m : Impl) : Nat := if m.is64 then 8 else 4

/-- `line_table::impl::read_string_from_section`: read a NUL-terminated
string from `.debug_line_str` or `.debug_str`; without a DWARF context the
section is unavailable and the code throws a format error. -/
def read_string_from_section (sec : Option Bytes) (off : Nat) : Except Err Bytes :=
  match sec with
  | none => .error .format
  | some bs =>
    match Cursor.readString ⟨bs, off⟩ with
    | .error e => .error e
    | .ok (s, _) => .ok s

/-- `line_table::impl::read_form_string` (line.cc lines 424-443). -/
def read_form_string (m : Impl) (cur : Cursor) (f : Form) : Except Err (Bytes × Cursor) :=
  match f with
  | .string => cur.readString
  | .line_strp =>
    match Cursor.readLE m.offsetSize cur with
    | .error e => .error e
    | .ok (off, c1) =>
      match read_string_from_section m.line_str off with
      | .error e => .error e
      | .ok s => .ok (s, c1)
  | .strp =>
    match Cursor.readLE m.offsetSize cur with
    | .error e => .error e
    | .ok (off, c1) =>
      match read_string_from_section m.str off with
      | .error e => .error e
      | .ok s => .ok (s, c1)
  | _ => .error .format

/-- `line_table::impl::read_form_unsigned` (line.cc lines 445-465). -/
def read_form_unsigned (cur : Cursor) (f : Form) : Except Err (Nat × Cursor) :=
  match f with
  | .data1 => Cursor.readLE 1 cur
  | .data2 => Cursor.readLE 2 cur
  | .data4 => Cursor.readLE 4 cur
  | .data8 => Cursor.readLE 8 cur
  | .udata => cur.uleb128
  | .sdata =>
    match cur.sleb128 with
    | .error e => .error e
    | .ok (v, c1) => .ok (wrap64 v, c1)
  | _ => .error .format

/-- Modelled from the spec: `cursor::skip_form` advances the cursor by the
width implied by the form (constant width for fixed forms, LEB128 for
variable forms, length-prefixed for blocks and strings); it lives in
internal.hh which is not part of the provided sources. -/
def skip_form (m : Impl) (cur : Cursor) (f : Form) : Except Err Cursor :=
  match f with
  | .addr => (Cursor.readLE m.addr_size cur).map (·.2)
  | .data1 => (Cursor.readLE 1 cur).map (·.2)
  | .data2 => (Cursor.readLE 2 cur).map (·.2)
  | .data4 => (Cursor.readLE 4 cur).map (·.2)
  | .data8 => (Cursor.readLE 8 cur).map (·.2)
  | .data16 => (Cursor.readLE 16 cur).map (·.2)
  | .flag => (Cursor.readLE 1 cur).map (·.2)
  | .udata => (cur.uleb128).map (·.2)
  | .sdata => (cur.sleb128).map (·.2)
  | .string => (cur.readString).map (·.2)
  | .strp => (Cursor.readLE m.offsetSize cur).map (·.2)
  | .line_strp => (Cursor.readLE m.offsetSize cur).map (·.2)
  | .sec_offset => (Cursor.readLE m.offsetSize cur).map (·.2)
  | _ => .error .format

/-- `line_table::impl::add_file_entry` (line.cc lines 293-313): absolute
names (leading byte 47, a slash) are stored as-is; otherwise the directory
with index `dir_index` is prepended, with a fall-back to `comp_dir` for
index 0 before DWARF 5; a missing directory is a format error. -/
def add_file_entry (m : Impl) (file_name : Bytes) (dir_index mtime length : Nat) :
    Except Err Impl :=
  if file_name = [] then .error .format
  else if file_name.head? = some 47 then
    .ok { m with file_names := m.file_names ++ [⟨file_name, mtime, length⟩] }
  else
    match m.include_directories.get? dir_index with
    | some base =>
      .ok { m with file_names := m.file_names ++ [⟨base ++ file_name, mtime, length⟩] }
    | none =>
      if dir_index = 0 ∧ m.version < 5 ∧ m.comp_dir ≠ [] then
        .ok { m with file_names := m.file_names ++ [⟨m.comp_dir ++ file_name, mtime, length⟩] }
      else .error .format

/-- The field-extraction loop shared by `read_v5_file_table` and
`read_file_entry_v5`: walk the entry formats, keeping the path, directory
index, timestamp and size fields and skipping the rest. -/
def read_v5_fields (m : Impl) :
    List EntryFormat → Cursor → Bytes → Nat → Nat → Nat →
    Except Err (Bytes × Nat × Nat × Nat × Cursor)
  | [], cur, name, dir, mtime, len => .ok (name, dir, mtime, len, cur)
  | fmt :: rest, cur, name, dir, mtime, len =>
    match fmt.content with
    | 1 =>
      match read_form_string m cur fmt.form with
      | .error e => .error e
      | .ok (s, c1) => read_v5_fields m rest c1 s dir mtime len
    | 2 =>
      match read_form_unsigned cur fmt.form with
      | .error e => .error e
      | .ok (v, c1) => read_v5_fields m rest c1 name v mtime len
    | 3 =>
      match read_form_unsigned cur fmt.form with
      | .error e => .error e
      | .ok (v, c1) => read_v5_fields m rest c1 name dir v len
    | 4 =>
      match read_form_unsigned cur fmt.form with
      | .error e => .error e
      | .ok (v, c1) => read_v5_fields m rest c1 name dir mtime v
    | _ =>
      match skip_form m cur fmt.form with
      | .error e => .error e
      | .ok c1 => read_v5_fields m rest c1 name dir mtime len

/-- `line_table::impl::read_file_entry_v5` (line.cc lines 385-422). -/
def read_file_entry_v5 (m : Impl) (cur : Cursor) : Except Err (Impl × Cursor) :=
  if m.file_entry_formats = [] then .error .format
  else
    match read_v5_fields m m.file_entry_formats cur [] 0 0 0 with
    | .error e => .error e
    | .ok (name, dir, mtime, len, c1) =>
      if c1.pos ≤ m.last_file_name_end then .ok (m, c1)
      else
        let m1 := { m with last_file_name_end := c1.pos }
        if name = [] then .ok (m1, c1)
        else
          match add_file_entry m1 name dir mtime len with
          | .error e => .error e
          | .ok m2 => .ok (m2, c1)

/-- `line_table::impl::read_file_entry` (line.cc lines 249-278).  The
returned flag is the C return value (false exactly when an empty name ends
a header table). -/
def read_file_entry (m : Impl) (cur : Cursor) (in_header : Bool) :
    Except Err (Impl × Cursor × Bool) :=
  if 5 ≤ m.version then
    match read_file_entry_v5 m cur with
    | .error e => .error e
    | .ok (m1, c1) => .ok (m1, c1, true)
  else
    match cur.readString with
    | .error e => .error e
    | .ok (file_name, c1) =>
      if in_header ∧ file_name = [] then .ok (m, c1, false)
      else
        match c1.uleb128 with
        | .error e => .error e
        | .ok (dir_index, c2) =>
          match c2.uleb128 with
          | .error e => .error e
          | .ok (mtime, c3) =>
            match c3.uleb128 with
            | .error e => .error e
            | .ok (length, c4) =>
              if c4.pos ≤ m.last_file_name_end then .ok (m, c4, true)
              else
                let m1 := { m with last_file_name_end := c4.pos }
                if file_name = [] then .ok (m1, c4, false)
                else
                  match add_file_entry m1 file_name dir_index mtime length with
                  | .error e => .error e
                  | .ok m2 => .ok (m2, c4, true)

/-- The outcome of one `line_table::iterator::step` call: the (possibly
updated) table state, the working registers, the committed row registers,
the cursor, and whether a row was emitted. -/
structure StepOut where
  impl : Impl
  regs : Regs
  entry : Regs
  cur : Cursor
  emitted : Bool
deriving DecidableEq, Repr

/-- The outcome of an extended sub-opcode body (the `switch ((DW_LNE)opcode)`
of line.cc lines 665-692), before the cursor is re-seated. -/
structure ExtOut where
  impl : Impl
  regs : Regs
  entry : Regs
  cur : Cursor
deriving DecidableEq, Repr

/-- The extended sub-opcode bodies of `line_table::iterator::step`
(line.cc lines 665-692).  Sub-opcodes follow the `DW_LNE` numbering:
1 end_sequence, 2 set_address, 3 define_file, 4 set_discriminator;
128-255 are the vendor range (`lo_user`..`hi_user`), rejected with a plain
runtime error; anything else is a format error. -/
def step_ext (m : Impl) (regs entry : Regs) (subop : Nat) (cur : Cursor) :
    Except Err ExtOut :=
  match subop with
  | 1 =>
    let regs1 := { regs with end_sequence := true }
    .ok ⟨m, Regs.reset m.default_is_stmt m.file_index_base, regs1, cur⟩
  | 2 =>
    match Cursor.address m.addr_size cur with
    | .error e => .error e
    | .ok (a, c1) => .ok ⟨m, { regs with address := a, op_index := 0 }, entry, c1⟩
  | 3 =>
    match read_file_entry m cur false with
    | .error e => .error e
    | .ok (m1, c1, _) => .ok ⟨m1, regs, entry, c1⟩
  | 4 =>
    match cur.uleb128 with
    | .error e => .error e
    | .ok (v, c1) => .ok ⟨m, { regs with discriminator := v % 2 ^ 32 }, entry, c1⟩
  | n =>
    if 128 ≤ n ∧ n ≤ 255 then .error .runtimeErr
    else .error .format

/-- The address/op_index advance shared by `DW_LNS::advance_pc` and
`DW_LNS::const_add_pc` (the `advance_pc:` label of line.cc lines 615-621).
`uarg` is a 64-bit operand, so the sum wraps at 2^64; the scaled increment
is a 64-bit product and the address is a 64-bit register; the new
`op_index` is stored into a 32-bit register. -/
def advance_pc_regs (m : Impl) (regs : Regs) (uarg : Nat) : Regs :=
  let t := (regs.op_index + uarg) % 2 ^ 64
  { regs with
    address := (regs.address + m.minimum_instruction_length * (t / m.maximum_operations_per_instruction) % 2 ^ 64) % 2 ^ 64
    op_index := t % m.maximum_operations_per_instruction % 2 ^ 32 }

/-- `line_table::iterator::step` (line.cc lines 566-699): execute one
opcode.  Special opcodes (at or above `opcode_base`) update line, address
and op_index with 32-bit intermediate arithmetic and emit a row; standard
opcodes 1-12 follow DWARF 4 section 6.2.5.2 with only `copy` emitting;
opcode 0 introduces an extended opcode whose cursor is re-seated at the
start of the length payload plus the declared length — a sum the source
computes in the 64-bit `section_offset` type, hence reduced modulo 2^64 —
overrunning that (possibly wrapped) end position being a format error. -/
def step (m : Impl) (regs entry : Regs) (cur : Cursor) : Except Err StepOut :=
  match cur.readByte with
  | .error e => .error e
  | .ok (opcode, c1) =>
    if m.opcode_base ≤ opcode then
      let adjusted_opcode := opcode - m.opcode_base
      let op_advance := adjusted_opcode / m.line_range
      let line_inc : Int := m.line_base + (adjusted_opcode % m.line_range : Nat)
      let t := (regs.op_index + op_advance) % 2 ^ 32
      let regs1 :=
        { regs with
          line := wrap32 ((regs.line : Int) + line_inc)
          address := (regs.address + m.minimum_instruction_length * (t / m.maximum_operations_per_instruction) % 2 ^ 32) % 2 ^ 64
          op_index := t % m.maximum_operations_per_instruction % 2 ^ 32 }
      let regs2 :=
        { regs1 with basic_block := false, prologue_end := false, epilogue_begin := false,
                     discriminator := 0 }
      .ok ⟨m, regs2, regs1, c1, true⟩
    else if opcode ≠ 0 then
      match opcode with
      | 1 =>
        let regs1 :=
          { regs with basic_block := false, prologue_end := false, epilogue_begin := false,
                      discriminator := 0 }
        .ok ⟨m, regs1, regs, c1, true⟩
      | 2 =>
        match c1.uleb128 with
        | .error e => .error e
        | .ok (uarg, c2) => .ok ⟨m, advance_pc_regs m regs uarg, entry, c2, false⟩
      | 3 =>
        match c1.sleb128 with
        | .error e => .error e
        | .ok (d, c2) =>
          .ok ⟨m, { regs with line := wrap32 (toS32 regs.line + d) }, entry, c2, false⟩
      | 4 =>
        match c1.uleb128 with
        | .error e => .error e
        | .ok (v, c2) => .ok ⟨m, { regs with file_index := v % 2 ^ 32 }, entry, c2, false⟩
      | 5 =>
        match c1.uleb128 with
        | .error e => .error e
        | .ok (v, c2) => .ok ⟨m, { regs with column := v % 2 ^ 32 }, entry, c2, false⟩
      | 6 => .ok ⟨m, { regs with is_stmt := !regs.is_stmt }, entry, c1, false⟩
      | 7 => .ok ⟨m, { regs with basic_block := true }, entry, c1, false⟩
      | 8 =>
        let uarg := (255 - m.opcode_base) / m.line_range
        .ok ⟨m, advance_pc_regs m regs uarg, entry, c1, false⟩
      | 9 =>
        match Cursor.readLE 2 c1 with
        | .error e => .error e
        | .ok (v, c2) =>
          .ok ⟨m, { regs with address := (regs.address + v) % 2 ^ 64, op_index := 0 }, entry, c2, false⟩
      | 10 => .ok ⟨m, { regs with prologue_end := true }, entry, c1, false⟩
      | 11 => .ok ⟨m, { regs with epilogue_begin := true }, entry, c1, false⟩
      | 12 =>
        match c1.uleb128 with
        | .error e => .error e
        | .ok (v, c2) => .ok ⟨m, { regs with isa := v % 2 ^ 32 }, entry, c2, false⟩
      | _ => .error .format
    else
      match c1.uleb128 with
      | .error e => .error e
      | .ok (length, c2) =>
        let endPos := (c2.pos + length) % 2 ^ 64
        match c2.readByte with
        | .error e => .error e
        | .ok (subop, c3) =>
          match step_ext m regs entry subop c3 with
          | .error e => .error e
          | .ok r =>
            if endPos < r.cur.pos then .error .format
            else .ok ⟨r.impl, r.regs, r.entry, ⟨cur.data, endPos⟩, subop == 1⟩

/-- The opcode loop of `line_table::iterator::operator++` (line.cc lines
537-547): run `step` until the cursor reaches the end of the program or a
row is emitted.  Returns the final state plus the `stepped` and `output`
flags. -/
def advanceLoop : Impl → Regs → Regs → Cursor → Bool → Bool → Nat →
    Except Err (Impl × Regs × Regs × Cursor × Bool × Bool)
  | m, regs, entry, cur, stepped, output, 0 =>
    if cur.atEnd ∨ output then .ok (m, regs, entry, cur, stepped, output)
    else .error .runtimeErr
  | m, regs, entry, cur, stepped, output, fuel + 1 =>
    if cur.atEnd ∨ output then .ok (m, regs, entry, cur, stepped, output)
    else
      match step m regs entry cur with
      | .error e => .error e
      | .ok s => advanceLoop s.impl s.regs s.entry s.cur true s.emitted fuel

/-- `line_table::iterator::operator++` (line.cc lines 534-564): run opcodes
until a row is emitted or the stream ends; running off the end after
stepping is a format error; reaching the end marks the file table complete;
an emitted row must carry a file index inside the file table.  Returns the
updated table state, the new iterator position, the working registers, the
iterator entry, and whether a row was emitted. -/
def iterNext (m : Impl) (pos : Nat) (regs entry : Regs) :
    Except Err (Impl × Nat × Regs × Regs × Bool) :=
  match advanceLoop m regs entry ⟨m.data, pos⟩ false false (m.data.length + 1) with
  | .error e => .error e
  | .ok (m1, regs1, entry1, cur1, stepped, output) =>
    if stepped ∧ ¬output then .error .format
    else
      let m2 := if stepped ∧ cur1.atEnd then { m1 with file_names_complete := true } else m1
      if output ∧ ¬(entry1.file_index < m2.file_names.length) then .error .format
      else .ok (m2, cur1.pos, regs1, entry1, output)

/-- Full iteration of the line-number program, as `for (auto &ent : *this)`
performs it: starting from `begin()` (which itself advances once), advance
until the iterator position equals the section length, collecting every
emitted row together with the iterator position right after it. -/
def collectLoop : Impl → Nat → Regs → Regs → Nat → Except Err (Impl × List (Regs × Nat))
  | _, _, _, _, 0 => .error .runtimeErr
  | m, pos, regs, entry, fuel + 1 =>
    if pos = m.data.length then .ok (m, [])
    else
      match iterNext m pos regs entry with
      | .error e => .error e
      | .ok (m1, pos1, regs1, entry1, output) =>
        match collectLoop m1 pos1 regs1 entry1 fuel with
        | .error e => .error e
        | .ok (m2, rest) => .ok (m2, if output then (entry1, pos1) :: rest else rest)

/-- The rows of a line table in emission order, each with the iterator
position following it, together with the final table state. -/
def collectRowsPos (m : Impl) : Except Err (Impl × List (Regs × Nat)) :=
  collectLoop m m.program_offset (Regs.reset m.default_is_stmt m.file_index_base)
    (Regs.reset m.default_is_stmt m.file_index_base) (m.data.length + 2)

/-- The table state after a full iteration of the opcode program (the
effect of the forcing loop inside `line_table::get_file`). -/
def iterateAll (m : Impl) : Except Err Impl :=
  match collectRowsPos m with
  | .error e => .error e
  | .ok (m1, _) => .ok m1

/-- `line_table::get_file` (line.cc lines 228-247): return the `index`-th
file entry, forcing a full iteration of the opcode program on the first
miss; an index still out of range afterwards raises `std::out_of_range`. -/
def get_file (m : Impl) (index : Nat) : Except Err (FileEntry × Impl) :=
  match m.file_names.get? index with
  | some f => .ok (f, m)
  | none =>
    match (if m.file_names_complete then .ok m else iterateAll m : Except Err Impl) with
    | .error e => .error e
    | .ok m1 =>
      match m1.file_names.get? index with
      | some f => .ok (f, m1)
      | none => .error .outOfRange

/-- The scanning loop of `line_table::find_address` (line.cc lines
219-223): `prev` is the entry of the previous iterator, and each turn first
advances (`++it`), stops when the new iterator equals `end()` (its position
equals the section length), and otherwise tests the address window. -/
def faLoop : Impl → Nat → Regs → Regs → Regs → Nat → Nat → Except Err (Option Regs)
  | _, _, _, _, _, _, 0 => .error .runtimeErr
  | m, pos, regs, entry, prev, a, fuel + 1 =>
    if pos = m.data.length then .ok none
    else
      match iterNext m pos regs entry with
      | .error e => .error e
      | .ok (m1, pos1, regs1, entry1, _) =>
        if pos1 = m1.data.length then .ok none
        else if prev.address ≤ a ∧ a < entry1.address ∧ prev.end_sequence = false then
          .ok (some prev)
        else faLoop m1 pos1 regs1 entry1 entry1 a fuel

/-- `line_table::find_address` (line.cc lines 211-226): returns the row the
loop stops on, or `none` for the end iterator. -/
def find_address (m : Impl) (a : Nat) : Except Err (Option Regs) :=
  let r0 := Regs.reset m.default_is_stmt m.file_index_base
  match iterNext m m.program_offset r0 r0 with
  | .error e => .error e
  | .ok (m1, pos1, regs1, entry1, _) =>
    if pos1 = m1.data.length then .ok none
    else faLoop m1 pos1 regs1 entry1 entry1 a (m.data.length + 1)

/-- The pure-list counterpart of the `find_address` scanning loop: walk the
rows (each with the iterator position following it) keeping the previous
row; a row whose following position equals the section length compares
equal to `end()` and stops the scan before its window is tested. -/
def faScan (prev : Regs) : List (Regs × Nat) → Nat → Nat → Option Regs
  | [], _, _ => none
  | (it, posAfter) :: rest, size, a =>
    if posAfter = size then none
    else if prev.address ≤ a ∧ a < it.address ∧ prev.end_sequence = false then some prev
    else faScan it rest size a

/-- The expected argument counts for standard opcodes (the static
`opcode_lengths` table of line.cc lines 15-23). -/
def opcode_lengths : List Nat := [0, 0, 1, 1, 1, 1, 0, 0, 0, 1, 0, 0, 1]

/-- The opcode-length check loop of the `line_table` constructor (line.cc
lines 136-151): read one argument count per standard opcode, failing with a
format error unless it equals the table entry; indices past the static
table (opcode_base above 13) read out of bounds in the C code and are
modelled as always mismatching. -/
def read_opcode_lengths_loop : Nat → Nat → Cursor → Except Err (List Nat × Cursor)
  | _, 0, cur => .ok ([], cur)
  | i, count + 1, cur =>
    match cur.readByte with
    | .error e => .error e
    | .ok (len, c1) =>
      if opcode_lengths.get? i = some len then
        match read_opcode_lengths_loop (i + 1) count c1 with
        | .error e => .error e
        | .ok (rest, c2) => .ok (len :: rest, c2)
      else .error .format

/-- The opcode-length table read of the `line_table` constructor: exactly
`opcode_base - 1` counts, for standard opcodes 1 .. opcode_base - 1. -/
def read_opcode_lengths (opcode_base : Nat) (cur : Cursor) : Except Err (List Nat × Cursor) :=
  read_opcode_lengths_loop 1 (opcode_base - 1) cur

/-!  ## Attribute values (dwarf/value.cc)  -/

/-- A section as the value decoder sees it: its bytes, its DWARF format
(64-bit or not) and its address size. -/
structure SectionD where
  data : Bytes
  is64 : Bool
  addr_size : Nat
deriving DecidableEq, Repr

/-- The sections reachable from a compilation unit that the embedded value
projections consult: the unit's own data, `.debug_str`, `.debug_line_str`
and `.debug_str_offsets`. -/
structure Ctx where
  cuData : SectionD
  str : SectionD
  line_str : SectionD
  str_offsets : SectionD
deriving DecidableEq, Repr

/-- `dwarf::value`: a form, a byte offset into the unit's section, and the
implicit-const payload. -/
structure Value where
  form : Form
  offset : Nat
  implicit_const : Int
  has_implicit_const : Bool
deriving DecidableEq, Repr

/-- The loop of `value::resolve_indirect` (value.cc lines 425-429): read
ULEB128 form codes until one is not `indirect`. -/
def resolve_indirect_loop (data : Bytes) : Nat → Nat → Except Err (Form × Nat)
  | _, 0 => .error .runtimeErr
  | pos, fuel + 1 =>
    match Cursor.uleb128 ⟨data, pos⟩ with
    | .error e => .error e
    | .ok (code, c1) =>
      if formOfCode code = .indirect then resolve_indirect_loop data c1.pos fuel
      else .ok (formOfCode code, c1.pos)

/-- `value::resolve_indirect` (value.cc lines 419-435).  The local variable
`DW_FORM form` in the source shadows the member `form`, so the stored form
field is left unchanged (it stays `indirect`); only the semantic type, the
implicit-const bookkeeping and the offset are updated. -/
def value_resolve_indirect (ctx : Ctx) (v : Value) : Except Err Value :=
  if v.form ≠ .indirect then .ok v
  else
    match resolve_indirect_loop ctx.cuData.data v.offset (ctx.cuData.data.length + 1) with
    | .error e => .error e
    | .ok (f, pos1) =>
      .ok { v with
              has_implicit_const := if f = .implicit_const then true else false
              implicit_const := 0
              offset := pos1 }

/-- The `value` constructor (value.cc lines 13-23): store the form, offset
and implicit-const payload, then resolve indirection when the form is
`indirect`. -/
def value_mk (ctx : Ctx) (f : Form) (ic : Int) (offset : Nat) : Except Err Value :=
  let v : Value := ⟨f, offset, ic, if f = .implicit_const then true else false⟩
  if f = .indirect then value_resolve_indirect ctx v else .ok v

/-- `value::as_uconstant` (value.cc lines 106-126). -/
def as_uconstant (ctx : Ctx) (v : Value) : Except Err Nat :=
  let c : Cursor := ⟨ctx.cuData.data, v.offset⟩
  match v.form with
  | .data1 => (Cursor.readLE 1 c).map (·.1)
  | .data2 => (Cursor.readLE 2 c).map (·.1)
  | .data4 => (Cursor.readLE 4 c).map (·.1)
  | .data8 => (Cursor.readLE 8 c).map (·.1)
  | .udata => (c.uleb128).map (·.1)
  | .implicit_const => .ok (wrap64 v.implicit_const)
  | _ => .error .typeMismatch

/-- The string-index extraction nested inside the `strx` case of
`value::as_cstr` (value.cc lines 363-382): `strx` reads a ULEB128,
`strx1/2/4` read 1, 2 or 4 bytes, and `strx3` reads one byte and then a
16-bit word shifted left by 8 (a 3-byte little-endian value); the switch
default leaves the index 0. -/
def strxIndex (v : Value) (c : Cursor) : Except Err (Nat × Cursor) :=
  match v.form with
  | .strx => c.uleb128
  | .strx1 => Cursor.readLE 1 c
  | .strx2 => Cursor.readLE 2 c
  | .strx3 =>
    match Cursor.readLE 1 c with
    | .error e => .error e
    | .ok (b0, c1) =>
      match Cursor.readLE 2 c1 with
      | .error e => .error e
      | .ok (w, c2) => .ok (b0 + 256 * w, c2)
  | .strx4 => Cursor.readLE 4 c
  | _ => .ok (0, c)

/-- `value::as_cstr` (value.cc lines 339-399), returning the string bytes.
For the `strx` family, the code uses a fixed 8-byte `.debug_str_offsets`
header regardless of DWARF format, a slot stride of 8 bytes when the
section's address size is 8 and 4 otherwise, and reads the slot value as an
offset of the section's DWARF format width. -/
def as_cstr (ctx : Ctx) (v : Value) : Except Err Bytes :=
  let c : Cursor := ⟨ctx.cuData.data, v.offset⟩
  match v.form with
  | .string => (c.readString).map (·.1)
  | .strp =>
    match Cursor.readLE (if ctx.cuData.is64 then 8 else 4) c with
    | .error e => .error e
    | .ok (off, _) =>
      match Cursor.readString ⟨ctx.str.data, off⟩ with
      | .error e => .error e
      | .ok (s, _) => .ok s
  | .line_strp =>
    match Cursor.readLE (if ctx.cuData.is64 then 8 else 4) c with
    | .error e => .error e
    | .ok (off, _) =>
      match Cursor.readString ⟨ctx.line_str.data, off⟩ with
      | .error e => .error e
      | .ok (s, _) => .ok s
  | .strx | .strx1 | .strx2 | .strx3 | .strx4 =>
    match strxIndex v c with
    | .error e => .error e
    | .ok (index, _) =>
      let s := ctx.str_offsets
      let header_size := 8
      let offset_size := if s.addr_size = 8 then 8 else 4
      match Cursor.readLE (if s.is64 then 8 else 4) ⟨s.data, header_size + index * offset_size⟩ with
      | .error e => .error e
      | .ok (str_off, _) =>
        match Cursor.readString ⟨ctx.str.data, str_off⟩ with
        | .error e => .error e
        | .ok (bs, _) => .ok bs
  | _ => .error .typeMismatch

/-- The string-index resolution exactly as the specification words it
(for comparison with `as_cstr`): slot `i` of `.debug_str_offsets` past an
8-byte header for 32-bit DWARF and a 16-byte header for 64-bit DWARF, each
slot 4 or 8 bytes wide according to the DWARF format of the section, then
the string read from `.debug_str` at that offset. -/
def spec_strx_resolve (ctx : Ctx) (i : Nat) : Except Err Bytes :=
  let s := ctx.str_offsets
  let header_size := if s.is64 then 16 else 8
  let w := if s.is64 then 8 else 4
  match Cursor.readLE w ⟨s.data, header_size + i * w⟩ with
  | .error e => .error e
  | .ok (off, _) =>
    match Cursor.readString ⟨ctx.str.data, off⟩ with
    | .error e => .error e
    | .ok (bs, _) => .ok bs

/-- The string-index resolution as the code performs it (the amended
claim): slot table past an 8-byte header regardless of DWARF format, slot
stride 8 bytes when the section's address size is 8 and 4 otherwise, the
slot value read as 4 or 8 bytes according to the DWARF format of the
section, and the result read from `.debug_str` at that offset. -/
def strx_resolve_amended (ctx : Ctx) (i : Nat) : Except Err Bytes :=
  let s := ctx.str_offsets
  let stride := if s.addr_size = 8 then 8 else 4
  match Cursor.readLE (if s.is64 then 8 else 4) ⟨s.data, 8 + i * stride⟩ with
  | .error e => .error e
  | .ok (off, _) =>
    match Cursor.readString ⟨ctx.str.data, off⟩ with
    | .error e => .error e
    | .ok (bs, _) => .ok bs

/-!  ## Concrete inputs used by the witnesses and counterexamples  -/

/-- A DWARF-4 line table used by the claims about `get_file`: one header
file entry, and a program that defines a file mid-program
(`DW_LNE_define_file` for the name `b` in directory 0), emits one row with
`DW_LNS_copy`, and ends with `DW_LNE_end_sequence`. -/
def tblGF : Impl where
  data := [0, 6, 3, 98, 0, 0, 0, 0, 1, 0, 1, 1]
  is64 := false
  addr_size := 8
  program_offset := 0
  version := 4
  minimum_instruction_length := 1
  maximum_operations_per_instruction := 1
  default_is_stmt := true
  line_base := -3
  line_range := 12
  opcode_base := 13
  file_index_base := 1
  comp_dir := [47, 99, 47]
  include_directories := [[47, 99, 47]]
  file_names := [⟨[47, 99, 47, 97], 0, 0⟩]
  file_entry_formats := []
  last_file_name_end := 0
  file_names_complete := false
  line_str := none
  str := none

/-- A DWARF-4 line table whose rows have non-monotone addresses: the
program sets the address to 5, 10 and then 7 (each followed by
`DW_LNS_copy`) and closes with `DW_LNE_end_sequence`, so the emitted rows
are at addresses 5, 10, 7, 7. -/
def tblFA : Impl where
  data := [0, 9, 2, 5, 0, 0, 0, 0, 0, 0, 0, 1,
           0, 9, 2, 10, 0, 0, 0, 0, 0, 0, 0, 1,
           0, 9, 2, 7, 0, 0, 0, 0, 0, 0, 0, 1,
           0, 1, 1]
  is64 := false
  addr_size := 8
  program_offset := 0
  version := 4
  minimum_instruction_length := 1
  maximum_operations_per_instruction := 1
  default_is_stmt := true
  line_base := -3
  line_range := 12
  opcode_base := 13
  file_index_base := 1
  comp_dir := [47, 99, 47]
  include_directories := [[47, 99, 47]]
  file_names := [⟨[47, 99, 47, 97], 0, 0⟩, ⟨[47, 99, 47, 98], 0, 0⟩]
  file_entry_formats := []
  last_file_name_end := 0
  file_names_complete := false
  line_str := none
  str := none

/-- The first row emitted by `tblFA`. -/
def rowFA : Regs where
  address := 5
  op_index := 0
  file_index := 1
  line := 1
  column := 0
  is_stmt := true
  basic_block := false
  end_sequence := false
  prologue_end := false
  epilogue_begin := false
  isa := 0
  discriminator := 0

/-- A context whose `.debug_str_offsets` section is 64-bit DWARF with
address size 8: bytes 8-15 hold the slot value 0 and bytes 16-23 hold the
slot value 2, while `.debug_str` holds the strings `A` and `B` at offsets
0 and 2.  The unit data is the single index byte 0 for a `strx1` value. -/
def ctxSX : Ctx where
  cuData := ⟨[0], false, 8⟩
  str := ⟨[65, 0, 66, 0], false, 8⟩
  line_str := ⟨[], false, 8⟩
  str_offsets := ⟨[9, 9, 9, 9, 9, 9, 9, 9,
                   0, 0, 0, 0, 0, 0, 0, 0,
                   2, 0, 0, 0, 0, 0, 0, 0], true, 8⟩

/-- A context for the indirect-form claim: the unit data holds the ULEB128
form code 0x0b (`data1`) at offset 0 followed by the constant 5. -/
def ctxIN : Ctx where
  cuData := ⟨[11, 5], false, 8⟩
  str := ⟨[], false, 8⟩
  line_str := ⟨[], false, 8⟩
  str_offsets := ⟨[], false, 8⟩

end dwarfpp

section CursorLemmas

open dwarfpp

theorem drop_eq_cons_succ {data : Bytes} {pos : Nat} {b : Nat} {t : Bytes}
    (h : data.drop pos = b :: t) : data.drop (pos + 1) = t := by
  have h2 : data.drop (pos + 1) = (data.drop pos).drop 1 := by
    rw [List.drop_drop]
  rw [h2, h]
  rfl

theorem readByte_of_drop {data : Bytes} {pos : Nat} {b : Nat} {t : Bytes}
    (h : data.drop pos = b :: t) :
    Cursor.readByte ⟨data, pos⟩ = .ok (b, ⟨data, pos + 1⟩) := by
  unfold Cursor.readByte Cursor.rest
  simp only [h]

theorem uleb128_of_core {data : Bytes} {pos : Nat} {v k : Nat}
    (h : ulebCore (data.drop pos) 10 = some (v, k)) :
    Cursor.uleb128 ⟨data, pos⟩ = .ok (v % 2 ^ 64, ⟨data, pos + k⟩) := by
  unfold Cursor.uleb128 Cursor.rest
  simp only [h]

theorem sleb128_of_core {data : Bytes} {pos : Nat} {v : Int} {k : Nat}
    (h : slebCore (data.drop pos) 10 = some (v, k)) :
    Cursor.sleb128 ⟨data, pos⟩ = .ok (toS64 (wrap64 v), ⟨data, pos + k⟩) := by
  unfold Cursor.sleb128 Cursor.rest
  simp only [h]

theorem readString_of_core {data : Bytes} {pos : Nat} {s : Bytes} {k : Nat}
    (h : cstrCore (data.drop pos) = some (s, k)) :
    Cursor.readString ⟨data, pos⟩ = .ok (s, ⟨data, pos + k⟩) := by
  unfold Cursor.readString Cursor.rest
  simp only [h]

theorem readLE_of_leEnc {n v : Nat} {data : Bytes} {pos : Nat} {rest : Bytes}
    (h : data.drop pos = leEnc n v ++ rest) (hv : v < 256 ^ n) :
    Cursor.readLE n ⟨data, pos⟩ = .ok (v, ⟨data, pos + n⟩) := by
  induction n generalizing v pos with
  | zero =>
    interval_cases v
    rfl
  | succ n ih =>
    rw [leEnc] at h
    simp only [List.cons_append] at h
    have hb := readByte_of_drop h
    have hrec : data.drop (pos + 1) = leEnc n (v / 256) ++ rest := drop_eq_cons_succ h
    have hlt : v / 256 < 256 ^ n := by
      rw [Nat.div_lt_iff_lt_mul (by norm_num)]
      calc v < 256 ^ (n + 1) := hv
        _ = 256 ^ n * 256 := by ring
    have hr := ih hrec hlt
    unfold Cursor.readLE
    rw [hb]
    dsimp only
    rw [hr]
    dsimp only
    have h1 : v % 256 % 256 + 256 * (v / 256) = v := by omega
    have h2 : pos + 1 + n = pos + (n + 1) := by omega
    rw [h1, h2]

end CursorLemmas

section LineStepLemmas

open dwarfpp

/-- C1: For every line-number program and every special opcode
(`opcode ≥ opcode_base`) executed by the row-state machine, with
`adjusted = opcode - opcode_base` and `op_advance = adjusted / line_range`,
the step adds `line_base + (adjusted % line_range)` to the line register,
adds `minimum_instruction_length * ((op_index + op_advance) /
maximum_operations_per_instruction)` to the address register, sets
`op_index` to `(op_index + op_advance) % maximum_operations_per_instruction`,
emits a row, and then resets `basic_block`, `prologue_end`,
`epilogue_begin` and `discriminator`. -/
theorem C1_special_opcode_step
    (m : Impl) (regs entry : Regs) (data : Bytes) (pos : Nat) (opcode : Nat) (t : Bytes)
    (hdrop : data.drop pos = opcode :: t)
    (_hlr : 0 < m.line_range)
    (hmo : 0 < m.maximum_operations_per_instruction)
    (hmo2 : m.maximum_operations_per_instruction ≤ 255)
    (hmin : m.minimum_instruction_length ≤ 255)
    (hop : regs.op_index < m.maximum_operations_per_instruction)
    (hob : m.opcode_base ≤ opcode)
    (hoc : opcode ≤ 255) :
    step m regs entry ⟨data, pos⟩ =
      .ok ⟨m,
        { regs with
            line := wrap32 ((regs.line : Int) +
              (m.line_base + (((opcode - m.opcode_base) % m.line_range : Nat) : Int)))
            address := (regs.address + m.minimum_instruction_length *
              ((regs.op_index + (opcode - m.opcode_base) / m.line_range) /
                m.maximum_operations_per_instruction)) % 2 ^ 64
            op_index := (regs.op_index + (opcode - m.opcode_base) / m.line_range) %
              m.maximum_operations_per_instruction
            basic_block := false
            prologue_end := false
            epilogue_begin := false
            discriminator := 0 },
        { regs with
            line := wrap32 ((regs.line : Int) +
              (m.line_base + (((opcode - m.opcode_base) % m.line_range : Nat) : Int)))
            address := (regs.address + m.minimum_instruction_length *
              ((regs.op_index + (opcode - m.opcode_base) / m.line_range) /
                m.maximum_operations_per_instruction)) % 2 ^ 64
            op_index := (regs.op_index + (opcode - m.opcode_base) / m.line_range) %
              m.maximum_operations_per_instruction },
        ⟨data, pos + 1⟩, true⟩ := by
  have hadv : (opcode - m.opcode_base) / m.line_range ≤ 255 :=
    le_trans (Nat.div_le_self _ _) (by omega)
  have hsum : regs.op_index + (opcode - m.opcode_base) / m.line_range < 2 ^ 32 := by omega
  have h1 : (regs.op_index + (opcode - m.opcode_base) / m.line_range) % 2 ^ 32 =
      regs.op_index + (opcode - m.opcode_base) / m.line_range := Nat.mod_eq_of_lt hsum
  have hq : (regs.op_index + (opcode - m.opcode_base) / m.line_range) /
      m.maximum_operations_per_instruction ≤ 509 :=
    le_trans (Nat.div_le_self _ _) (by omega)
  have h2 : m.minimum_instruction_length *
      ((regs.op_index + (opcode - m.opcode_base) / m.line_range) /
        m.maximum_operations_per_instruction) % 2 ^ 32 =
      m.minimum_instruction_length *
      ((regs.op_index + (opcode - m.opcode_base) / m.line_range) /
        m.maximum_operations_per_instruction) := by
    apply Nat.mod_eq_of_lt
    calc m.minimum_instruction_length * _ ≤ 255 * 509 :=
          Nat.mul_le_mul hmin hq
      _ < 2 ^ 32 := by norm_num
  have h3 : (regs.op_index + (opcode - m.opcode_base) / m.line_range) %
      m.maximum_operations_per_instruction % 2 ^ 32 =
      (regs.op_index + (opcode - m.opcode_base) / m.line_range) %
      m.maximum_operations_per_instruction := by
    apply Nat.mod_eq_of_lt
    have := Nat.mod_lt (regs.op_index + (opcode - m.opcode_base) / m.line_range) hmo
    omega
  unfold step
  rw [readByte_of_drop hdrop]
  dsimp only
  rw [if_pos hob]
  rw [h1, h2, h3]

end LineStepLemmas

section RangeLemmas

open dwarfpp

theorem pos_lt_of_drop_cons {data : Bytes} {pos b : Nat} {t : Bytes}
    (h : data.drop pos = b :: t) : pos < data.length := by
  by_contra hle
  rw [List.drop_eq_nil_of_le (by omega)] at h
  exact List.noConfusion h

theorem leEnc_length (n v : Nat) : (leEnc n v).length = n := by
  induction n generalizing v with
  | zero => rfl
  | succ n ih => simp [leEnc, ih]

theorem drop_append_of_drop {data : Bytes} {pos : Nat} {l1 l2 : Bytes}
    (h : data.drop pos = l1 ++ l2) : data.drop (pos + l1.length) = l2 := by
  induction l1 generalizing pos with
  | nil => simpa using h
  | cons b l1 ih =>
    rw [List.cons_append] at h
    have h2 := ih (drop_eq_cons_succ h)
    have hpp : pos + (b :: l1).length = pos + 1 + l1.length := by
      simp
      omega
    rw [hpp]
    exact h2

theorem pow256 (a : Nat) : (256 : Nat) ^ a = 2 ^ (8 * a) := by
  rw [pow_mul]
  norm_num

/-- C2 (amended): in DWARF-5 range-list iteration, a `startx_endx` entry
reads two ULEB128 indices and is skipped without emitting anything, and a
`startx_length` entry reads a ULEB128 index and a ULEB128 length and is
likewise skipped without emitting anything (the code does not consult
`.debug_addr`). -/
theorem C2_rl5_index_entries_skipped :
    (∀ (data : Bytes) (a pos base fuel : Nat) (t : Bytes) (i k1 j k2 : Nat),
        data.drop pos = 2 :: t →
        ulebCore t 10 = some (i, k1) →
        ulebCore (data.drop (pos + 1 + k1)) 10 = some (j, k2) →
        rl5_advance data a pos base (fuel + 1) =
          rl5_advance data a (pos + 1 + k1 + k2) base fuel) ∧
    (∀ (data : Bytes) (a pos base fuel : Nat) (t : Bytes) (i k1 j k2 : Nat),
        data.drop pos = 3 :: t →
        ulebCore t 10 = some (i, k1) →
        ulebCore (data.drop (pos + 1 + k1)) 10 = some (j, k2) →
        rl5_advance data a pos base (fuel + 1) =
          rl5_advance data a (pos + 1 + k1 + k2) base fuel) := by
  constructor
  all_goals
    intro data a pos base fuel t i k1 j k2 h0 h1 h2
    have hlt := pos_lt_of_drop_cons h0
    have ht : data.drop (pos + 1) = t := drop_eq_cons_succ h0
    conv_lhs => rw [rl5_advance]
    rw [if_neg (by omega)]
    rw [readByte_of_drop h0]
    dsimp only
    rw [uleb128_of_core (ht ▸ h1)]
    dsimp only
    rw [uleb128_of_core h2]

/-- C2 witness: instantiating the skip law on the concrete streams
`[2, 5, 7, 0]` and `[3, 5, 7, 0]`. -/
theorem C2_rl5_index_entries_skipped_witness :
    rl5_advance [2, 5, 7, 0] 8 0 0 10 = rl5_advance [2, 5, 7, 0] 8 3 0 9 ∧
    rl5_advance [3, 5, 7, 0] 8 0 0 10 = rl5_advance [3, 5, 7, 0] 8 3 0 9 := by
  constructor
  · exact C2_rl5_index_entries_skipped.1 [2, 5, 7, 0] 8 0 0 9 [5, 7, 0] 5 1 7 1 rfl rfl rfl
  · exact C2_rl5_index_entries_skipped.2 [3, 5, 7, 0] 8 0 0 9 [5, 7, 0] 5 1 7 1 rfl rfl rfl

/-- C2 counterexample: on the concrete stream
`[startx_endx, 5, 7, end_of_list]` the first advance terminates the
iterator without emitting anything, and the whole iteration yields no
entries, whereas the claim requires the `startx_endx` entry to emit a
resolved address pair. -/
theorem C2_counterexample :
    rl5_advance [2, 5, 7, 0] 8 0 0 10 = .ok .atEnd ∧
    rl5_collect [2, 5, 7, 0] 8 0 0 10 = .ok [] := by
  constructor <;> rfl

end RangeLemmas

section C1Witness

open dwarfpp

/-- C1 witness: the special opcode 23 with `opcode_base = 13`,
`line_base = -3`, `line_range = 12` advances the line register from 1 to 8
and emits a row. -/
theorem C1_special_opcode_step_witness :
    step tblGF (Regs.reset true 1) (Regs.reset true 1) ⟨[23], 0⟩ =
      .ok ⟨tblGF,
        ⟨0, 0, 1, 8, 0, true, false, false, false, false, 0, 0⟩,
        ⟨0, 0, 1, 8, 0, true, false, false, false, false, 0, 0⟩,
        ⟨[23], 1⟩, true⟩ := by
  have h := C1_special_opcode_step tblGF (Regs.reset true 1) (Regs.reset true 1)
    [23] 0 23 [] rfl (by decide) (by decide) (by decide) (by decide) (by decide)
    (by decide) (by decide)
  rw [h]
  rfl

end C1Witness

section C3Section

open dwarfpp

/-- C3: In DWARF-4 range-list iteration each step reads two addresses of
`addr_size` bytes: a `(0, 0)` pair terminates the iterator, a pair whose
first word equals the largest representable value of `addr_size` bytes
(`rl4_largest`) sets the base address to the second word and continues
without emitting, and any other pair emits `(base + low, base + high)`; in
particular the byte sequence `(~0, B), (x, y), (0, 0)` yields exactly one
entry `(B + x, B + y)` and then terminates.  `addr_size` is restricted to
1, 2, 3 or 8, the sizes for which the `1 << (8 * addr_size)` computation
of the sentinel is defined in C (for sizes 4-7 the 32-bit shift is undefined
behaviour). -/
theorem C3_rl4_base_address
    (a B x y : Nat)
    (ha : a = 1 ∨ a = 2 ∨ a = 3 ∨ a = 8)
    (hB : B < 2 ^ (8 * a)) (hx : x < 2 ^ (8 * a)) (hy : y < 2 ^ (8 * a))
    (hxL : x ≠ 2 ^ (8 * a) - 1) (hxy : ¬(x = 0 ∧ y = 0)) :
    rl4_largest a = 2 ^ (8 * a) - 1 ∧
    (∀ (data : Bytes) (pos base fuel : Nat) (rest : Bytes),
        data.drop pos = leEnc a 0 ++ (leEnc a 0 ++ rest) →
        rl4_advance data a pos base (fuel + 1) = .ok .atEnd) ∧
    (∀ (data : Bytes) (pos base fuel : Nat) (rest : Bytes),
        data.drop pos = leEnc a (2 ^ (8 * a) - 1) ++ (leEnc a B ++ rest) →
        rl4_advance data a pos base (fuel + 1) = rl4_advance data a (pos + 2 * a) B fuel) ∧
    (∀ (data : Bytes) (pos base fuel : Nat) (rest : Bytes),
        data.drop pos = leEnc a x ++ (leEnc a y ++ rest) →
        rl4_advance data a pos base (fuel + 1) =
          .ok (.emit ((base + x) % 2 ^ 64) ((base + y) % 2 ^ 64) (pos + 2 * a) base)) ∧
    (∀ f : Nat,
        rl4_collect
          (leEnc a (2 ^ (8 * a) - 1) ++ (leEnc a B ++ (leEnc a x ++ (leEnc a y ++
            (leEnc a 0 ++ leEnc a 0))))) a 0 0 (f + 2) =
          .ok [((B + x) % 2 ^ 64, (B + y) % 2 ^ 64)]) := by
  have ha1 : 0 < a := by omega
  have ha2 : a ≤ 8 := by omega
  have hpow1 : (1 : Nat) ≤ 2 ^ (8 * a) := Nat.one_le_two_pow
  have hpow256 : (256 : Nat) ≤ 2 ^ (8 * a) := by
    calc (256 : Nat) = 2 ^ (8 * 1) := by norm_num
      _ ≤ 2 ^ (8 * a) := Nat.pow_le_pow_right (by norm_num) (by omega)
  have hL : rl4_largest a = 2 ^ (8 * a) - 1 := by
    unfold rl4_largest
    by_cases hc : a < 8
    · rw [if_pos hc]
      have hle : 2 ^ (8 * a) ≤ 2 ^ 56 := by
        apply Nat.pow_le_pow_right (by norm_num)
        omega
      have h1 : 2 ^ 64 - 1 + 2 ^ (8 * a) = 2 ^ 64 + (2 ^ (8 * a) - 1) := by omega
      rw [h1, Nat.add_mod_left]
      apply Nat.mod_eq_of_lt
      norm_num at hle ⊢
      omega
    · rw [if_neg hc]
      have : a = 8 := by omega
      subst this
      norm_num
  have haddr : ∀ (data : Bytes) (v pos : Nat) (rest : Bytes), v < 2 ^ (8 * a) →
      data.drop pos = leEnc a v ++ rest →
      Cursor.address a ⟨data, pos⟩ = .ok (v, ⟨data, pos + a⟩) := by
    intro data v pos rest hv hdrop
    unfold Cursor.address
    exact readLE_of_leEnc hdrop (by rw [pow256]; exact hv)
  have hdrop2 : ∀ (data : Bytes) (v pos : Nat) (rest : Bytes),
      data.drop pos = leEnc a v ++ rest → data.drop (pos + a) = rest := by
    intro data v pos rest hdrop
    have h1 := drop_append_of_drop hdrop
    rw [leEnc_length] at h1
    exact h1
  have part2 : ∀ (data : Bytes) (pos base fuel : Nat) (rest : Bytes),
      data.drop pos = leEnc a 0 ++ (leEnc a 0 ++ rest) →
      rl4_advance data a pos base (fuel + 1) = .ok .atEnd := by
    intro data pos base fuel rest hdrop
    conv_lhs => rw [rl4_advance]
    rw [haddr data 0 pos _ hpow1 hdrop]
    dsimp only
    rw [haddr data 0 (pos + a) _ hpow1 (hdrop2 data 0 pos _ hdrop)]
    dsimp only
    rw [if_pos ⟨rfl, rfl⟩]
  have part3 : ∀ (data : Bytes) (pos base fuel : Nat) (rest : Bytes),
      data.drop pos = leEnc a (2 ^ (8 * a) - 1) ++ (leEnc a B ++ rest) →
      rl4_advance data a pos base (fuel + 1) = rl4_advance data a (pos + 2 * a) B fuel := by
    intro data pos base fuel rest hdrop
    conv_lhs => rw [rl4_advance]
    rw [haddr data (2 ^ (8 * a) - 1) pos _ (by omega) hdrop]
    dsimp only
    rw [haddr data B (pos + a) _ hB (hdrop2 data _ pos _ hdrop)]
    dsimp only
    rw [if_neg (by omega), if_pos hL.symm]
    have hpp : pos + a + a = pos + 2 * a := by ring
    rw [hpp]
  have part4 : ∀ (data : Bytes) (pos base fuel : Nat) (rest : Bytes),
      data.drop pos = leEnc a x ++ (leEnc a y ++ rest) →
      rl4_advance data a pos base (fuel + 1) =
        .ok (.emit ((base + x) % 2 ^ 64) ((base + y) % 2 ^ 64) (pos + 2 * a) base) := by
    intro data pos base fuel rest hdrop
    conv_lhs => rw [rl4_advance]
    rw [haddr data x pos _ hx hdrop]
    dsimp only
    rw [haddr data y (pos + a) _ hy (hdrop2 data x pos _ hdrop)]
    dsimp only
    rw [if_neg hxy]
    rw [if_neg (by rw [hL]; exact hxL)]
    have hpp : pos + a + a = pos + 2 * a := by ring
    rw [hpp, Nat.add_comm x base, Nat.add_comm y base]
  refine ⟨hL, part2, part3, part4, ?_⟩
  intro f
  set data : Bytes := leEnc a (2 ^ (8 * a) - 1) ++ (leEnc a B ++ (leEnc a x ++ (leEnc a y ++
    (leEnc a 0 ++ leEnc a 0)))) with hdata
  have hlen : data.length = 6 * a := by
    simp [hdata, leEnc_length]
    ring
  have hd0 : data.drop 0 = leEnc a (2 ^ (8 * a) - 1) ++ (leEnc a B ++ (leEnc a x ++ (leEnc a y ++
      (leEnc a 0 ++ leEnc a 0)))) := List.drop_zero data
  have hd1 : data.drop (0 + a) = leEnc a B ++ (leEnc a x ++ (leEnc a y ++
      (leEnc a 0 ++ leEnc a 0))) := hdrop2 data _ 0 _ hd0
  have hd2 : data.drop (0 + a + a) = leEnc a x ++ (leEnc a y ++
      (leEnc a 0 ++ leEnc a 0)) := hdrop2 data B (0 + a) _ hd1
  have hd2e : data.drop (0 + 2 * a) = leEnc a x ++ (leEnc a y ++
      (leEnc a 0 ++ leEnc a 0)) := by
    have hpp : 0 + a + a = 0 + 2 * a := by ring
    rw [hpp] at hd2
    exact hd2
  have hd3 : data.drop (0 + 2 * a + a) = leEnc a y ++ (leEnc a 0 ++ leEnc a 0) :=
    hdrop2 data x (0 + 2 * a) _ hd2e
  have hd4 : data.drop (0 + 2 * a + a + a) = leEnc a 0 ++ leEnc a 0 :=
    hdrop2 data y (0 + 2 * a + a) _ hd3
  have hd4e : data.drop (0 + 2 * a + 2 * a) = leEnc a 0 ++ (leEnc a 0 ++ []) := by
    have hpp : 0 + 2 * a + a + a = 0 + 2 * a + 2 * a := by ring
    rw [hpp] at hd4
    rw [List.append_nil]
    exact hd4
  show rl4_collect data a 0 0 (f + 1 + 1) = _
  conv_lhs => rw [rl4_collect]
  rw [part3 data 0 0 data.length _ hd0]
  have hsplit : ∃ g, data.length = g + 1 := ⟨data.length - 1, by rw [hlen]; omega⟩
  obtain ⟨g, hg⟩ := hsplit
  rw [hg]
  rw [part4 data (0 + 2 * a) B g _ hd2e]
  dsimp only
  conv_lhs => rw [rl4_collect]
  rw [part2 data (0 + 2 * a + 2 * a) B data.length _ hd4e]

end C3Section

section C3Witness

open dwarfpp

/-- C3 witness: with `addr_size = 8`, the stream
`(~0, 0x1000), (0x10, 0x20), (0, 0)` yields exactly the entry
`(0x1010, 0x1020)`. -/
theorem C3_rl4_base_address_witness :
    rl4_collect (leEnc 8 (2 ^ (8 * 8) - 1) ++ (leEnc 8 0x1000 ++ (leEnc 8 0x10 ++ (leEnc 8 0x20 ++
      (leEnc 8 0 ++ leEnc 8 0))))) 8 0 0 2 = .ok [(0x1010, 0x1020)] := by
  have h := (C3_rl4_base_address 8 0x1000 0x10 0x20 (by norm_num)
    (by norm_num) (by norm_num) (by norm_num) (by decide) (by decide)).2.2.2.2 0
  exact h

end C3Witness

section C4Section

open dwarfpp

/-- C4 (amended): for every value whose form is `strx`, `strx1..4` with
index `i`, the string projection returns the string read from `.debug_str`
at the offset stored in slot `i` of `.debug_str_offsets`, where the slot
table begins past an 8-byte header regardless of the DWARF format of the
section, the slot stride is 8 bytes when the section's address size is 8
and 4 bytes otherwise, and the slot value is read as 4 or 8 bytes
according to the DWARF format of the section. -/
theorem C4_strx_resolution
    (ctx : Ctx) (v : Value) (i : Nat) (c1 : Cursor)
    (hform : v.form = .strx ∨ v.form = .strx1 ∨ v.form = .strx2 ∨
      v.form = .strx3 ∨ v.form = .strx4)
    (hidx : strxIndex v ⟨ctx.cuData.data, v.offset⟩ = .ok (i, c1)) :
    as_cstr ctx v = strx_resolve_amended ctx i := by
  unfold as_cstr strx_resolve_amended
  rcases hform with h | h | h | h | h <;>
    · rw [h]
      dsimp only
      rw [hidx]

/-- C4 witness: a `strx1` value with index byte 0 resolves through slot 0
of `.debug_str_offsets` (8-byte header, 8-byte stride on this section) to
the string `A`. -/
theorem C4_strx_resolution_witness :
    as_cstr ctxSX ⟨.strx1, 0, 0, false⟩ = strx_resolve_amended ctxSX 0 ∧
    strx_resolve_amended ctxSX 0 = .ok [65] := by
  constructor
  · exact C4_strx_resolution ctxSX ⟨.strx1, 0, 0, false⟩ 0 ⟨[0], 1⟩
      (Or.inr (Or.inl rfl)) rfl
  · rfl

/-- C4 counterexample: on a 64-bit-DWARF `.debug_str_offsets` section the
code resolves a `strx1` index through the slot at byte offset 8 (string
`A`), while the claim's 16-byte header would resolve through the slot at
byte offset 16 (string `B`). -/
theorem C4_counterexample :
    as_cstr ctxSX ⟨.strx1, 0, 0, false⟩ = .ok [65] ∧
    spec_strx_resolve ctxSX 0 = .ok [66] ∧
    ([65] : Bytes) ≠ [66] := by
  refine ⟨rfl, rfl, by decide⟩

end C4Section

section C5Section

open dwarfpp

/-- C5 (amended): `get_file i` returns the `i`-th file entry directly when
it is already known; on a miss with an incomplete file table it forces a
full iteration of the opcode program (making mid-program `define_file`
entries visible) and returns the `i`-th entry of the resulting table, or
fails with `std::out_of_range` (not a format error) when the index is
still out of range. -/
theorem C5_get_file_forces_iteration :
    (∀ (m : Impl) (i : Nat) (f : FileEntry), m.file_names.get? i = some f →
        get_file m i = .ok (f, m)) ∧
    (∀ (m : Impl) (i : Nat) (m1 : Impl), m.file_names.get? i = none →
        m.file_names_complete = false → iterateAll m = .ok m1 →
        get_file m i =
          match m1.file_names.get? i with
          | some f => .ok (f, m1)
          | none => .error .outOfRange) := by
  constructor
  · intro m i f h
    unfold get_file
    rw [h]
  · intro m i m1 hnone hcomp hiter
    unfold get_file
    rw [hnone, hcomp]
    rw [hiter]
    rfl

/-- C5 witness: on the table with a mid-program `define_file`, looking up
index 1 misses the one-entry header table, forces the iteration, and
returns the file defined by the program; looking up index 0 hits
directly. -/
theorem C5_get_file_forces_iteration_witness :
    get_file tblGF 0 = .ok (⟨[47, 99, 47, 97], 0, 0⟩, tblGF) ∧
    get_file tblGF 1 =
      .ok (⟨[47, 99, 47, 98], 0, 0⟩,
        { tblGF with
            file_names := [⟨[47, 99, 47, 97], 0, 0⟩, ⟨[47, 99, 47, 98], 0, 0⟩],
            last_file_name_end := 8,
            file_names_complete := true }) := by
  constructor
  · exact C5_get_file_forces_iteration.1 tblGF 0 ⟨[47, 99, 47, 97], 0, 0⟩ rfl
  · have h := C5_get_file_forces_iteration.2 tblGF 1
      { tblGF with
          file_names := [⟨[47, 99, 47, 97], 0, 0⟩, ⟨[47, 99, 47, 98], 0, 0⟩],
          last_file_name_end := 8,
          file_names_complete := true } rfl rfl rfl
    rw [h]
    rfl

/-- C5 counterexample: an index out of range after full iteration raises
`std::out_of_range`, which is not the `format_error` the claim names. -/
theorem C5_counterexample :
    get_file tblGF 5 = .error .outOfRange ∧ Err.outOfRange ≠ Err.format := by
  refine ⟨rfl, by decide⟩

end C5Section

section C6Section

open dwarfpp

/-- C6: the row registers equal
(0, 0, file_index_base, 1, 0, default_is_stmt, false, false, false, false,
0, 0) at program start (`Regs.reset` is what `begin()` installs), and the
step that executes `DW_LNE_end_sequence` emits the current registers as a
row with `end_sequence` set and resets the working registers to those same
defaults before the next opcode executes; the extended opcode's declared
length is required not to overflow the 64-bit end-position sum, since at a
wrapping length the code instead throws a format error. -/
theorem C6_register_reset :
    (∀ (d : Bool) (fib : Nat), Regs.reset d fib =
        ⟨0, 0, fib, 1, 0, d, false, false, false, false, 0, 0⟩) ∧
    (∀ (m : Impl) (regs entry : Regs) (data : Bytes) (pos : Nat) (t t2 : Bytes) (len k : Nat),
        data.drop pos = 0 :: t →
        ulebCore t 10 = some (len, k) →
        data.drop (pos + 1 + k) = 1 :: t2 →
        0 < len → pos + 1 + k + len < 2 ^ 64 →
        0 < m.opcode_base →
        step m regs entry ⟨data, pos⟩ =
          .ok ⟨m, Regs.reset m.default_is_stmt m.file_index_base,
            { regs with end_sequence := true }, ⟨data, pos + 1 + k + len⟩, true⟩) := by
  constructor
  · intro d fib
    rfl
  · intro m regs entry data pos t t2 len k h0 h1 h2 hlen1 hsum hob
    have hlen2 : len < 2 ^ 64 := by omega
    have ht : data.drop (pos + 1) = t := drop_eq_cons_succ h0
    unfold step
    rw [readByte_of_drop h0]
    dsimp only
    rw [if_neg (by omega)]
    rw [if_neg (show ¬(0 : Nat) ≠ 0 from fun hc => hc rfl)]
    rw [uleb128_of_core (ht ▸ h1)]
    dsimp only
    rw [Nat.mod_eq_of_lt hlen2]
    rw [readByte_of_drop h2]
    dsimp only
    simp only [step_ext]
    have hmod : (pos + 1 + k + len) % 2 ^ 64 = pos + 1 + k + len := Nat.mod_eq_of_lt hsum
    rw [hmod]
    rw [if_neg (by omega)]
    rfl

end C6Section

section C6Witness

open dwarfpp

/-- C6 witness: program start registers for `default_is_stmt = true`,
`file_index_base = 1`, and the concrete `end_sequence` opcode `[0, 1, 1]`
resetting the working registers. -/
theorem C6_register_reset_witness :
    Regs.reset true 1 = ⟨0, 0, 1, 1, 0, true, false, false, false, false, 0, 0⟩ ∧
    step tblGF ⟨77, 3, 1, 9, 4, false, true, false, true, true, 5, 6⟩
        (Regs.reset true 1) ⟨[0, 1, 1], 0⟩ =
      .ok ⟨tblGF, Regs.reset true 1,
        ⟨77, 3, 1, 9, 4, false, true, true, true, true, 5, 6⟩,
        ⟨[0, 1, 1], 3⟩, true⟩ := by
  constructor
  · exact C6_register_reset.1 true 1
  · have h := C6_register_reset.2 tblGF ⟨77, 3, 1, 9, 4, false, true, false, true, true, 5, 6⟩
      (Regs.reset true 1) [0, 1, 1] 0 [1, 1] [] 1 1 rfl rfl rfl (by decide) (by decide) (by decide)
    rw [h]
    rfl

end C6Witness

section C7Section

open dwarfpp

theorem get?_of_drop_cons : ∀ (l : Bytes) (i b : Nat) (t : Bytes),
    l.drop i = b :: t → l.get? i = some b := by
  intro l
  induction l with
  | nil =>
    intro i b t h
    rw [List.drop_nil] at h
    exact List.noConfusion h
  | cons x xs ih =>
    intro i b t h
    cases i with
    | zero =>
      rw [List.drop_zero] at h
      cases h
      rfl
    | succ i =>
      rw [List.drop_succ_cons] at h
      exact ih i b t h

theorem drop_cons_of_lt : ∀ (l : Bytes) (i : Nat), i < l.length →
    ∃ (b : Nat) (t : Bytes), l.drop i = b :: t := by
  intro l i hi
  have hne : l.drop i ≠ [] := by
    intro hc
    have := List.length_drop i l
    rw [hc] at this
    simp at this
    omega
  match hd : l.drop i with
  | [] => exact absurd hd hne
  | b :: t => exact ⟨b, t, rfl⟩

theorem take_drop_cons {l : Bytes} {i b : Nat} {t : Bytes} (h : l.drop i = b :: t)
    (count : Nat) : (l.drop i).take (count + 1) = b :: t.take count := by
  rw [h]
  rfl

/-- The behaviour of the opcode-length check loop: starting at standard
opcode `i` with `count` bytes to read, it succeeds exactly when the bytes
equal the corresponding slice of the canonical table, consuming exactly
`count` bytes, and fails with a format error otherwise. -/
theorem read_opcode_lengths_loop_spec :
    ∀ (count i : Nat) (data : Bytes) (pos : Nat) (cs rest : Bytes),
    i + count ≤ 13 →
    cs.length = count →
    data.drop pos = cs ++ rest →
    read_opcode_lengths_loop i count ⟨data, pos⟩ =
      if cs = (opcode_lengths.drop i).take count then .ok (cs, ⟨data, pos + count⟩)
      else .error .format := by
  intro count
  induction count with
  | zero =>
    intro i data pos cs rest hi hlen hdrop
    rw [List.length_eq_zero] at hlen
    subst hlen
    rw [if_pos (by simp)]
    rfl
  | succ count ih =>
    intro i data pos cs rest hi hlen hdrop
    match cs with
    | [] => exact absurd hlen (by simp)
    | b :: cs2 =>
      have hlen2 : cs2.length = count := by simpa using hlen
      rw [List.cons_append] at hdrop
      have hi13 : i < 13 := by omega
      obtain ⟨oi, ti, hdi⟩ := drop_cons_of_lt opcode_lengths i (by simpa [opcode_lengths] using hi13)
      have hget : opcode_lengths.get? i = some oi := get?_of_drop_cons _ _ _ _ hdi
      have hti : opcode_lengths.drop (i + 1) = ti := drop_eq_cons_succ hdi
      unfold read_opcode_lengths_loop
      rw [readByte_of_drop hdrop]
      dsimp only
      by_cases hbo : b = oi
      · subst hbo
        rw [if_pos hget]
        rw [ih (i + 1) data (pos + 1) cs2 rest (by omega) hlen2 (drop_eq_cons_succ hdrop)]
        rw [take_drop_cons hdi count, hti]
        by_cases hcs : cs2 = ti.take count
        · rw [if_pos hcs, if_pos (by rw [hcs])]
          dsimp only
          have hpp : pos + 1 + count = pos + (count + 1) := by omega
          rw [hpp]
        · rw [if_neg hcs, if_neg (by intro hc; exact hcs (List.cons.injEq .. ▸ hc).2)]
      · rw [if_neg (by rw [hget]; intro hc; exact hbo (Option.some.injEq .. ▸ hc).symm)]
        rw [take_drop_cons hdi count]
        rw [if_neg (by intro hc; exact hbo ((List.cons.injEq .. ▸ hc).1))]

/-- C7: during line-table header parsing exactly `opcode_base - 1`
standard-opcode argument counts are read, and the read succeeds (consuming
exactly those bytes) precisely when each count equals the canonical count
for the corresponding standard opcode — the table
(copy 0, advance_pc 1, advance_line 1, set_file 1, set_column 1,
negate_stmt 0, set_basic_block 0, const_add_pc 0, fixed_advance_pc 1,
set_prologue_end 0, set_epilogue_begin 0, set_isa 1) — and fails with a
format error on any mismatch. -/
theorem C7_opcode_length_table
    (ob : Nat) (data : Bytes) (pos : Nat) (cs rest : Bytes)
    (hob1 : 1 ≤ ob) (hob2 : ob ≤ 13)
    (hlen : cs.length = ob - 1)
    (hdrop : data.drop pos = cs ++ rest) :
    read_opcode_lengths ob ⟨data, pos⟩ =
      if cs = [0, 1, 1, 1, 1, 0, 0, 0, 1, 0, 0, 1].take (ob - 1)
      then .ok (cs, ⟨data, pos + (ob - 1)⟩)
      else .error .format := by
  unfold read_opcode_lengths
  rw [read_opcode_lengths_loop_spec (ob - 1) 1 data pos cs rest (by omega) hlen hdrop]
  rfl

/-- C7 witness: the canonical twelve counts parse for `opcode_base = 13`,
and a mismatching first count is a format error. -/
theorem C7_opcode_length_table_witness :
    read_opcode_lengths 13 ⟨[0, 1, 1, 1, 1, 0, 0, 0, 1, 0, 0, 1], 0⟩ =
      .ok ([0, 1, 1, 1, 1, 0, 0, 0, 1, 0, 0, 1],
        ⟨[0, 1, 1, 1, 1, 0, 0, 0, 1, 0, 0, 1], 12⟩) ∧
    read_opcode_lengths 13 ⟨[5, 1, 1, 1, 1, 0, 0, 0, 1, 0, 0, 1], 0⟩ = .error .format := by
  constructor
  · have h := C7_opcode_length_table 13 [0, 1, 1, 1, 1, 0, 0, 0, 1, 0, 0, 1] 0
      [0, 1, 1, 1, 1, 0, 0, 0, 1, 0, 0, 1] [] (by norm_num) (by norm_num) (by decide) (by simp)
    rw [h]
    rfl
  · have h := C7_opcode_length_table 13 [5, 1, 1, 1, 1, 0, 0, 0, 1, 0, 0, 1] 0
      [5, 1, 1, 1, 1, 0, 0, 0, 1, 0, 0, 1] [] (by norm_num) (by norm_num) (by decide) (by simp)
    rw [h]
    rfl

end C7Section

section C8Section

open dwarfpp

/-- C8: for every extended opcode (a zero byte, a ULEB128 total length
`len`, then a one-byte sub-opcode), when the sub-opcode body succeeds the
cursor is re-seated at the start of the length payload plus the declared
length — a sum computed in the 64-bit `section_offset` type, hence reduced
modulo 2^64 — regardless of how many bytes the body consumed, and when the
body consumed past that end position the step fails with a format
error. -/
theorem C8_extended_opcode_reseat
    (m : Impl) (regs entry : Regs) (data : Bytes) (pos : Nat) (t t2 : Bytes)
    (len k subop : Nat) (r : ExtOut)
    (h0 : data.drop pos = 0 :: t)
    (h1 : ulebCore t 10 = some (len, k))
    (hlen2 : len < 2 ^ 64)
    (h2 : data.drop (pos + 1 + k) = subop :: t2)
    (hob : 0 < m.opcode_base)
    (hbody : step_ext m regs entry subop ⟨data, pos + 1 + k + 1⟩ = .ok r) :
    (r.cur.pos ≤ (pos + 1 + k + len) % 2 ^ 64 →
      step m regs entry ⟨data, pos⟩ =
        .ok ⟨r.impl, r.regs, r.entry, ⟨data, (pos + 1 + k + len) % 2 ^ 64⟩, subop == 1⟩) ∧
    ((pos + 1 + k + len) % 2 ^ 64 < r.cur.pos →
      step m regs entry ⟨data, pos⟩ = .error .format) := by
  have ht : data.drop (pos + 1) = t := drop_eq_cons_succ h0
  have hcommon : step m regs entry ⟨data, pos⟩ =
      (if (pos + 1 + k + len) % 2 ^ 64 < r.cur.pos then .error .format
       else .ok ⟨r.impl, r.regs, r.entry, ⟨data, (pos + 1 + k + len) % 2 ^ 64⟩, subop == 1⟩) := by
    unfold step
    rw [readByte_of_drop h0]
    dsimp only
    rw [if_neg (by omega)]
    rw [if_neg (show ¬(0 : Nat) ≠ 0 from fun hc => hc rfl)]
    rw [uleb128_of_core (ht ▸ h1)]
    dsimp only
    rw [Nat.mod_eq_of_lt hlen2]
    rw [readByte_of_drop h2]
    dsimp only
    rw [hbody]
  constructor
  · intro hle
    rw [hcommon, if_neg (by omega)]
  · intro hlt
    rw [hcommon, if_pos hlt]

/-- C8 witness: a `set_discriminator` padded to length 3 re-seats the
cursor at position 5; a `set_address` whose 8-byte operand overruns its
declared length 1 is a format error; and an `end_sequence` whose declared
length 2^64 - 1 wraps the 64-bit end position below the sub-opcode's
cursor is likewise a format error. -/
theorem C8_extended_opcode_reseat_witness :
    step tblGF (Regs.reset true 1) (Regs.reset true 1) ⟨[0, 3, 4, 7, 9], 0⟩ =
      .ok ⟨tblGF,
        ⟨0, 0, 1, 1, 0, true, false, false, false, false, 0, 7⟩,
        Regs.reset true 1, ⟨[0, 3, 4, 7, 9], 5⟩, false⟩ ∧
    step tblGF (Regs.reset true 1) (Regs.reset true 1)
      ⟨[0, 1, 2, 5, 0, 0, 0, 0, 0, 0, 0], 0⟩ = .error .format ∧
    step tblGF (Regs.reset true 1) (Regs.reset true 1)
      ⟨[0, 255, 255, 255, 255, 255, 255, 255, 255, 255, 1, 1], 0⟩ = .error .format := by
  refine ⟨?_, ?_, ?_⟩
  · have h := (C8_extended_opcode_reseat tblGF (Regs.reset true 1) (Regs.reset true 1)
      [0, 3, 4, 7, 9] 0 [3, 4, 7, 9] [7, 9] 3 1 4
      ⟨tblGF, ⟨0, 0, 1, 1, 0, true, false, false, false, false, 0, 7⟩,
        Regs.reset true 1, ⟨[0, 3, 4, 7, 9], 4⟩⟩
      rfl rfl (by norm_num) rfl (by decide) rfl).1 (by norm_num)
    rw [h]
    rfl
  · exact (C8_extended_opcode_reseat tblGF (Regs.reset true 1) (Regs.reset true 1)
      [0, 1, 2, 5, 0, 0, 0, 0, 0, 0, 0] 0 [1, 2, 5, 0, 0, 0, 0, 0, 0, 0]
      [5, 0, 0, 0, 0, 0, 0, 0] 1 1 2
      ⟨tblGF, ⟨5, 0, 1, 1, 0, true, false, false, false, false, 0, 0⟩,
        Regs.reset true 1, ⟨[0, 1, 2, 5, 0, 0, 0, 0, 0, 0, 0], 11⟩⟩
      rfl rfl (by norm_num) rfl (by decide) rfl).2 (by norm_num)
  · exact (C8_extended_opcode_reseat tblGF (Regs.reset true 1) (Regs.reset true 1)
      [0, 255, 255, 255, 255, 255, 255, 255, 255, 255, 1, 1] 0
      [255, 255, 255, 255, 255, 255, 255, 255, 255, 1, 1] [] (2 ^ 64 - 1) 10 1
      ⟨tblGF, Regs.reset true 1,
        ⟨0, 0, 1, 1, 0, true, false, true, false, false, 0, 0⟩,
        ⟨[0, 255, 255, 255, 255, 255, 255, 255, 255, 255, 1, 1], 12⟩⟩
      rfl (by decide) (by norm_num) rfl (by decide) rfl).2 (by decide)

end C8Section

section C9Section

open dwarfpp

/-- C9: constructing a value with form `indirect` over the payload
`[0x0b, 5]` (form code `data1`, then the constant 5) leaves the stored form
equal to `indirect` — the local variable in `resolve_indirect` shadows the
member — so the typed projection `as_uconstant` raises
`value_type_mismatch`, while constructing the value directly with form
`data1` at the following offset returns the constant 5.  This refutes the
claimed transparency at this input and records the code bug. -/
theorem C9_indirect_not_transparent :
    value_mk ctxIN .indirect 0 0 = .ok ⟨.indirect, 1, 0, false⟩ ∧
    as_uconstant ctxIN ⟨.indirect, 1, 0, false⟩ = .error .typeMismatch ∧
    as_cstr ctxIN ⟨.indirect, 1, 0, false⟩ = .error .typeMismatch ∧
    value_mk ctxIN .data1 0 1 = .ok ⟨.data1, 1, 0, false⟩ ∧
    as_uconstant ctxIN ⟨.data1, 1, 0, false⟩ = .ok 5 ∧
    (Except.error .typeMismatch : Except Err Nat) ≠ .ok 5 := by
  refine ⟨rfl, rfl, rfl, rfl, rfl, ?_⟩
  intro h
  exact Except.noConfusion h

end C9Section

section Preservation

open dwarfpp

theorem readByte_data {c : Cursor} {b : Nat} {c1 : Cursor}
    (h : c.readByte = .ok (b, c1)) : c1.data = c.data := by
  unfold Cursor.readByte at h
  split at h
  · exact Except.noConfusion h
  · cases h
    rfl

theorem readLE_data : ∀ {n : Nat} {c : Cursor} {v : Nat} {c1 : Cursor},
    Cursor.readLE n c = .ok (v, c1) → c1.data = c.data := by
  intro n
  induction n with
  | zero =>
    intro c v c1 h
    cases h
    rfl
  | succ n ih =>
    intro c v c1 h
    unfold Cursor.readLE at h
    split at h
    · exact Except.noConfusion h
    · split at h
      · exact Except.noConfusion h
      · cases h
        rename_i b cb hb v2 c2 h2
        exact (ih h2).trans (readByte_data hb)

theorem uleb128_data {c : Cursor} {v : Nat} {c1 : Cursor}
    (h : c.uleb128 = .ok (v, c1)) : c1.data = c.data := by
  unfold Cursor.uleb128 at h
  split at h
  · cases h
    rfl
  · exact Except.noConfusion h

theorem sleb128_data {c : Cursor} {v : Int} {c1 : Cursor}
    (h : c.sleb128 = .ok (v, c1)) : c1.data = c.data := by
  unfold Cursor.sleb128 at h
  split at h
  · cases h
    rfl
  · exact Except.noConfusion h

theorem readString_data {c : Cursor} {s : Bytes} {c1 : Cursor}
    (h : c.readString = .ok (s, c1)) : c1.data = c.data := by
  unfold Cursor.readString at h
  split at h
  · cases h
    rfl
  · exact Except.noConfusion h

theorem address_data {a : Nat} {c : Cursor} {v : Nat} {c1 : Cursor}
    (h : Cursor.address a c = .ok (v, c1)) : c1.data = c.data :=
  readLE_data h

theorem mapsnd_readLE_data {n : Nat} {c c1 : Cursor}
    (h : (Cursor.readLE n c).map (·.2) = .ok c1) : c1.data = c.data := by
  cases hr : Cursor.readLE n c with
  | error e =>
    rw [hr] at h
    exact Except.noConfusion h
  | ok p =>
    rw [hr] at h
    simp only [Except.map] at h
    cases h
    exact readLE_data hr

theorem mapsnd_uleb128_data {c c1 : Cursor}
    (h : (Cursor.uleb128 c).map (·.2) = .ok c1) : c1.data = c.data := by
  cases hr : Cursor.uleb128 c with
  | error e =>
    rw [hr] at h
    exact Except.noConfusion h
  | ok p =>
    rw [hr] at h
    simp only [Except.map] at h
    cases h
    exact uleb128_data hr

theorem mapsnd_sleb128_data {c c1 : Cursor}
    (h : (Cursor.sleb128 c).map (·.2) = .ok c1) : c1.data = c.data := by
  cases hr : Cursor.sleb128 c with
  | error e =>
    rw [hr] at h
    exact Except.noConfusion h
  | ok p =>
    rw [hr] at h
    simp only [Except.map] at h
    cases h
    exact sleb128_data hr

theorem mapsnd_readString_data {c c1 : Cursor}
    (h : (Cursor.readString c).map (·.2) = .ok c1) : c1.data = c.data := by
  cases hr : Cursor.readString c with
  | error e =>
    rw [hr] at h
    exact Except.noConfusion h
  | ok p =>
    rw [hr] at h
    simp only [Except.map] at h
    cases h
    exact readString_data hr

theorem read_form_string_data {m : Impl} {cur : Cursor} {f : Form} {s : Bytes} {c1 : Cursor}
    (h : read_form_string m cur f = .ok (s, c1)) : c1.data = cur.data := by
  unfold read_form_string at h
  repeat' split at h
  all_goals
    first
      | exact Except.noConfusion h
      | exact readString_data h
      | exact readLE_data h
      | (cases h
         first
           | rfl
           | exact readString_data (by assumption)
           | exact readLE_data (by assumption))

theorem read_form_unsigned_data {cur : Cursor} {f : Form} {v : Nat} {c1 : Cursor}
    (h : read_form_unsigned cur f = .ok (v, c1)) : c1.data = cur.data := by
  unfold read_form_unsigned at h
  repeat' split at h
  all_goals
    first
      | exact Except.noConfusion h
      | exact readLE_data h
      | exact uleb128_data h
      | (cases h
         first
           | rfl
           | exact readLE_data (by assumption)
           | exact uleb128_data (by assumption)
           | exact sleb128_data (by assumption))

theorem skip_form_data {m : Impl} {cur : Cursor} {f : Form} {c1 : Cursor}
    (h : skip_form m cur f = .ok c1) : c1.data = cur.data := by
  unfold skip_form at h
  split at h <;>
    first
      | exact Except.noConfusion h
      | exact mapsnd_readLE_data h
      | exact mapsnd_uleb128_data h
      | exact mapsnd_sleb128_data h
      | exact mapsnd_readString_data h

end Preservation

section Preservation2

open dwarfpp

theorem read_v5_fields_data {m : Impl} :
    ∀ (fmts : List EntryFormat) (cur : Cursor) (n0 : Bytes) (d0 t0 l0 : Nat)
      {n : Bytes} {d t l : Nat} {c1 : Cursor},
    read_v5_fields m fmts cur n0 d0 t0 l0 = .ok (n, d, t, l, c1) → c1.data = cur.data := by
  intro fmts
  induction fmts with
  | nil =>
    intro cur n0 d0 t0 l0 n d t l c1 h
    cases h
    rfl
  | cons fmt rest ih =>
    intro cur n0 d0 t0 l0 n d t l c1 h
    unfold read_v5_fields at h
    repeat' split at h
    all_goals
      first
        | exact Except.noConfusion h
        | exact (ih _ _ _ _ _ h).trans (read_form_string_data (by assumption))
        | exact (ih _ _ _ _ _ h).trans (read_form_unsigned_data (by assumption))
        | exact (ih _ _ _ _ _ h).trans (skip_form_data (by assumption))

theorem add_file_entry_data {m : Impl} {n : Bytes} {d t l : Nat} {m2 : Impl}
    (h : add_file_entry m n d t l = .ok m2) : m2.data = m.data := by
  unfold add_file_entry at h
  repeat' split at h
  all_goals
    first
      | exact Except.noConfusion h
      | (cases h; rfl)

theorem read_file_entry_v5_data {m : Impl} {cur : Cursor} {m2 : Impl} {c1 : Cursor}
    (h : read_file_entry_v5 m cur = .ok (m2, c1)) :
    m2.data = m.data ∧ c1.data = cur.data := by
  unfold read_file_entry_v5 at h
  split at h
  · exact Except.noConfusion h
  · cases hf : read_v5_fields m m.file_entry_formats cur [] 0 0 0 with
    | error e =>
      rw [hf] at h
      exact Except.noConfusion h
    | ok p =>
      obtain ⟨name, dir, mtime, len, c2⟩ := p
      rw [hf] at h
      dsimp only at h
      have hc2 : c2.data = cur.data := read_v5_fields_data _ _ _ _ _ _ hf
      split at h
      · cases h
        exact ⟨rfl, hc2⟩
      · split at h
        · cases h
          exact ⟨rfl, hc2⟩
        · cases ha : add_file_entry { m with last_file_name_end := c2.pos } name dir mtime len with
          | error e =>
            rw [ha] at h
            exact Except.noConfusion h
          | ok m3 =>
            rw [ha] at h
            cases h
            have hd := add_file_entry_data ha
            exact ⟨hd, hc2⟩

end Preservation2

section Preservation3

open dwarfpp

theorem read_file_entry_data {m : Impl} {cur : Cursor} {ih : Bool} {m2 : Impl}
    {c1 : Cursor} {b : Bool}
    (h : read_file_entry m cur ih = .ok (m2, c1, b)) :
    m2.data = m.data ∧ c1.data = cur.data := by
  unfold read_file_entry at h
  split at h
  · cases hv : read_file_entry_v5 m cur with
    | error e =>
      rw [hv] at h
      exact Except.noConfusion h
    | ok p =>
      obtain ⟨m3, c3⟩ := p
      rw [hv] at h
      cases h
      exact read_file_entry_v5_data hv
  · cases hs : cur.readString with
    | error e =>
      rw [hs] at h
      exact Except.noConfusion h
    | ok p =>
      obtain ⟨name, c2⟩ := p
      rw [hs] at h
      dsimp only at h
      have hc2 : c2.data = cur.data := readString_data hs
      split at h
      · cases h
        exact ⟨rfl, hc2⟩
      · cases hu1 : c2.uleb128 with
        | error e =>
          rw [hu1] at h
          exact Except.noConfusion h
        | ok p1 =>
          obtain ⟨dir, c3⟩ := p1
          rw [hu1] at h
          dsimp only at h
          have hc3 : c3.data = cur.data := (uleb128_data hu1).trans hc2
          cases hu2 : c3.uleb128 with
          | error e =>
            rw [hu2] at h
            exact Except.noConfusion h
          | ok p2 =>
            obtain ⟨mt, c4⟩ := p2
            rw [hu2] at h
            dsimp only at h
            have hc4 : c4.data = cur.data := (uleb128_data hu2).trans hc3
            cases hu3 : c4.uleb128 with
            | error e =>
              rw [hu3] at h
              exact Except.noConfusion h
            | ok p3 =>
              obtain ⟨ln, c5⟩ := p3
              rw [hu3] at h
              dsimp only at h
              have hc5 : c5.data = cur.data := (uleb128_data hu3).trans hc4
              split at h
              · cases h
                exact ⟨rfl, hc5⟩
              · split at h
                · cases h
                  exact ⟨rfl, hc5⟩
                · cases ha : add_file_entry { m with last_file_name_end := c5.pos }
                      name dir mt ln with
                  | error e =>
                    rw [ha] at h
                    exact Except.noConfusion h
                  | ok m3 =>
                    rw [ha] at h
                    cases h
                    have hd := add_file_entry_data ha
                    exact ⟨hd, hc5⟩

theorem step_ext_data {m : Impl} {regs entry : Regs} {subop : Nat} {cur : Cursor} {r : ExtOut}
    (h : step_ext m regs entry subop cur = .ok r) :
    r.impl.data = m.data ∧ r.cur.data = cur.data := by
  unfold step_ext at h
  split at h
  · cases h
    exact ⟨rfl, rfl⟩
  · cases ha : Cursor.address m.addr_size cur with
    | error e =>
      rw [ha] at h
      exact Except.noConfusion h
    | ok p =>
      obtain ⟨v, c2⟩ := p
      rw [ha] at h
      cases h
      exact ⟨rfl, address_data ha⟩
  · cases hf : read_file_entry m cur false with
    | error e =>
      rw [hf] at h
      exact Except.noConfusion h
    | ok p =>
      obtain ⟨m3, c3, b3⟩ := p
      rw [hf] at h
      cases h
      exact read_file_entry_data hf
  · cases hu : cur.uleb128 with
    | error e =>
      rw [hu] at h
      exact Except.noConfusion h
    | ok p =>
      obtain ⟨v, c2⟩ := p
      rw [hu] at h
      cases h
      exact ⟨rfl, uleb128_data hu⟩
  · split at h
    · exact Except.noConfusion h
    · exact Except.noConfusion h

end Preservation3

section Preservation4

open dwarfpp

theorem step_data {m : Impl} {regs entry : Regs} {cur : Cursor} {s : StepOut}
    (h : step m regs entry cur = .ok s) :
    s.impl.data = m.data ∧ s.cur.data = cur.data := by
  unfold step at h
  cases hr : cur.readByte with
  | error e =>
    rw [hr] at h
    exact Except.noConfusion h
  | ok p =>
    obtain ⟨opcode, c1⟩ := p
    rw [hr] at h
    dsimp only at h
    have hc1 : c1.data = cur.data := readByte_data hr
    split at h
    · cases h
      exact ⟨rfl, hc1⟩
    · split at h
      · split at h
        all_goals
          first
            | exact Except.noConfusion h
            | (cases h; exact ⟨rfl, hc1⟩)
            | (split at h
               all_goals
                 first
                   | exact Except.noConfusion h
                   | (cases h
                      refine ⟨rfl, ?_⟩
                      first
                        | exact (uleb128_data (by assumption)).trans hc1
                        | exact (sleb128_data (by assumption)).trans hc1
                        | exact (readLE_data (by assumption)).trans hc1))
      · cases hu : c1.uleb128 with
        | error e =>
          rw [hu] at h
          exact Except.noConfusion h
        | ok p1 =>
          obtain ⟨len, c2⟩ := p1
          rw [hu] at h
          dsimp only at h
          cases hb : c2.readByte with
          | error e =>
            rw [hb] at h
            exact Except.noConfusion h
          | ok p2 =>
            obtain ⟨subop, c3⟩ := p2
            rw [hb] at h
            dsimp only at h
            cases hx : step_ext m regs entry subop c3 with
            | error e =>
              rw [hx] at h
              exact Except.noConfusion h
            | ok r =>
              rw [hx] at h
              dsimp only at h
              split at h
              · exact Except.noConfusion h
              · cases h
                exact ⟨(step_ext_data hx).1, rfl⟩

end Preservation4

section IterLemmas

open dwarfpp

theorem advanceLoop_data : ∀ (fuel : Nat) (m : Impl) (regs entry : Regs) (cur : Cursor)
    (st out : Bool) {m1 : Impl} {regs1 entry1 : Regs} {cur1 : Cursor} {st1 out1 : Bool},
    advanceLoop m regs entry cur st out fuel = .ok (m1, regs1, entry1, cur1, st1, out1) →
    m1.data = m.data ∧ cur1.data = cur.data := by
  intro fuel
  induction fuel with
  | zero =>
    intro m regs entry cur st out m1 regs1 entry1 cur1 st1 out1 h
    unfold advanceLoop at h
    split at h
    · cases h
      exact ⟨rfl, rfl⟩
    · exact Except.noConfusion h
  | succ fuel ih =>
    intro m regs entry cur st out m1 regs1 entry1 cur1 st1 out1 h
    unfold advanceLoop at h
    split at h
    · cases h
      exact ⟨rfl, rfl⟩
    · cases hs : step m regs entry cur with
      | error e =>
        rw [hs] at h
        exact Except.noConfusion h
      | ok s =>
        rw [hs] at h
        have h1 := ih _ _ _ _ _ _ h
        have h2 := step_data hs
        exact ⟨h1.1.trans h2.1, h1.2.trans h2.2⟩

theorem advanceLoop_stepped : ∀ (fuel : Nat) (m : Impl) (regs entry : Regs) (cur : Cursor)
    (out : Bool) {m1 : Impl} {regs1 entry1 : Regs} {cur1 : Cursor} {st1 out1 : Bool},
    advanceLoop m regs entry cur true out fuel = .ok (m1, regs1, entry1, cur1, st1, out1) →
    st1 = true := by
  intro fuel
  induction fuel with
  | zero =>
    intro m regs entry cur out m1 regs1 entry1 cur1 st1 out1 h
    unfold advanceLoop at h
    split at h
    · cases h
      rfl
    · exact Except.noConfusion h
  | succ fuel ih =>
    intro m regs entry cur out m1 regs1 entry1 cur1 st1 out1 h
    unfold advanceLoop at h
    split at h
    · cases h
      rfl
    · cases hs : step m regs entry cur with
      | error e =>
        rw [hs] at h
        exact Except.noConfusion h
      | ok s =>
        rw [hs] at h
        exact ih _ _ _ _ _ h

theorem advanceLoop_not_stepped : ∀ (fuel : Nat) (m : Impl) (regs entry : Regs) (cur : Cursor)
    {m1 : Impl} {regs1 entry1 : Regs} {cur1 : Cursor} {out1 : Bool},
    advanceLoop m regs entry cur false false fuel = .ok (m1, regs1, entry1, cur1, false, out1) →
    m1 = m ∧ regs1 = regs ∧ entry1 = entry ∧ cur1 = cur ∧ out1 = false ∧ cur.atEnd = true := by
  intro fuel
  induction fuel with
  | zero =>
    intro m regs entry cur m1 regs1 entry1 cur1 out1 h
    unfold advanceLoop at h
    split at h
    · cases h
      rename_i hcond
      rcases hcond with hc | hc
      · exact ⟨rfl, rfl, rfl, rfl, rfl, hc⟩
      · exact Bool.noConfusion hc
    · exact Except.noConfusion h
  | succ fuel ih =>
    intro m regs entry cur m1 regs1 entry1 cur1 out1 h
    unfold advanceLoop at h
    split at h
    · cases h
      rename_i hcond
      rcases hcond with hc | hc
      · exact ⟨rfl, rfl, rfl, rfl, rfl, hc⟩
      · exact Bool.noConfusion hc
    · cases hs : step m regs entry cur with
      | error e =>
        rw [hs] at h
        exact Except.noConfusion h
      | ok s =>
        rw [hs] at h
        exact absurd (advanceLoop_stepped _ _ _ _ _ _ h) (by simp)

theorem iterNext_data {m : Impl} {pos : Nat} {regs entry : Regs} {m1 : Impl} {pos1 : Nat}
    {regs1 entry1 : Regs} {out : Bool}
    (h : iterNext m pos regs entry = .ok (m1, pos1, regs1, entry1, out)) :
    m1.data = m.data := by
  unfold iterNext at h
  cases ha : advanceLoop m regs entry ⟨m.data, pos⟩ false false (m.data.length + 1) with
  | error e =>
    rw [ha] at h
    exact Except.noConfusion h
  | ok t =>
    obtain ⟨tm, tr, te, tc, ts, tout⟩ := t
    rw [ha] at h
    dsimp only at h
    split at h
    · exact Except.noConfusion h
    · split at h
      · split at h
        · exact Except.noConfusion h
        · cases h
          exact (advanceLoop_data _ _ _ _ _ _ _ ha).1
      · split at h
        · exact Except.noConfusion h
        · cases h
          exact (advanceLoop_data _ _ _ _ _ _ _ ha).1

theorem iterNext_at_end {m : Impl} {pos : Nat} (regs entry : Regs)
    (hpos : m.data.length ≤ pos) :
    iterNext m pos regs entry = .ok (m, pos, regs, entry, false) := by
  unfold iterNext
  conv_lhs => rw [advanceLoop]
  rw [if_pos (Or.inl (by simp [Cursor.atEnd]; exact hpos))]
  dsimp only
  rw [if_neg (by simp)]
  rw [if_neg (by simp)]
  rw [if_neg (by simp)]

theorem iterNext_output_false {m : Impl} {pos : Nat} {regs entry : Regs} {m1 : Impl}
    {pos1 : Nat} {regs1 entry1 : Regs}
    (h : iterNext m pos regs entry = .ok (m1, pos1, regs1, entry1, false)) :
    m1 = m ∧ pos1 = pos ∧ regs1 = regs ∧ entry1 = entry ∧ m.data.length ≤ pos := by
  unfold iterNext at h
  cases ha : advanceLoop m regs entry ⟨m.data, pos⟩ false false (m.data.length + 1) with
  | error e =>
    rw [ha] at h
    exact Except.noConfusion h
  | ok t =>
    obtain ⟨tm, tr, te, tc, ts, tout⟩ := t
    rw [ha] at h
    dsimp only at h
    split at h
    · exact Except.noConfusion h
    · rename_i hno
      split at h
      · rename_i hm2
        split at h
        · exact Except.noConfusion h
        · cases h
          have hts : ts = false := by simpa using hno
          rw [hts] at hm2
          exact absurd hm2.1 (by simp)
      · split at h
        · exact Except.noConfusion h
        · cases h
          have hts : ts = false := by simpa using hno
          subst hts
          obtain ⟨h1, h2, h3, h4, _h5, h6⟩ := advanceLoop_not_stepped _ _ _ _ _ ha
          refine ⟨h1, ?_, h2, h3, ?_⟩
          · rw [h4]
          · simpa [Cursor.atEnd] using h6

end IterLemmas

section BridgeLemmas

open dwarfpp

theorem collect_overshoot : ∀ (fuel : Nat) (m : Impl) (pos : Nat) (regs entry : Regs),
    m.data.length ≤ pos → pos ≠ m.data.length →
    collectLoop m pos regs entry fuel = .error .runtimeErr := by
  intro fuel
  induction fuel with
  | zero =>
    intro m pos regs entry hle hne
    rfl
  | succ fuel ih =>
    intro m pos regs entry hle hne
    conv_lhs => rw [collectLoop]
    rw [if_neg hne]
    rw [iterNext_at_end regs entry hle]
    dsimp only
    rw [ih m pos regs entry hle hne]

theorem faLoop_eq_faScan : ∀ (fuel : Nat) (m : Impl) (pos : Nat) (regs entry prev : Regs)
    (a : Nat) {mF : Impl} {rows : List (Regs × Nat)},
    collectLoop m pos regs entry fuel = .ok (mF, rows) →
    faLoop m pos regs entry prev a fuel = .ok (faScan prev rows m.data.length a) := by
  intro fuel
  induction fuel with
  | zero =>
    intro m pos regs entry prev a mF rows h
    exact Except.noConfusion h
  | succ fuel ih =>
    intro m pos regs entry prev a mF rows h
    rw [collectLoop] at h
    conv_lhs => rw [faLoop]
    by_cases hpos : pos = m.data.length
    · rw [if_pos hpos] at h
      cases h
      rw [if_pos hpos]
      rfl
    · rw [if_neg hpos] at h
      rw [if_neg hpos]
      cases hi : iterNext m pos regs entry with
      | error e =>
        rw [hi] at h
        exact Except.noConfusion h
      | ok t =>
        obtain ⟨m1, pos1, regs1, entry1, out⟩ := t
        rw [hi] at h
        dsimp only at h
        have hdata : m1.data = m.data := iterNext_data hi
        cases hrec : collectLoop m1 pos1 regs1 entry1 fuel with
        | error e =>
          rw [hrec] at h
          exact Except.noConfusion h
        | ok t2 =>
          obtain ⟨mF2, rows2⟩ := t2
          rw [hrec] at h
          dsimp only at h
          cases out with
          | false =>
            obtain ⟨e1, e2, _e3, _e4, e5⟩ := iterNext_output_false hi
            rw [e1, e2] at hrec
            rw [collect_overshoot fuel m pos regs1 entry1 e5 hpos] at hrec
            exact Except.noConfusion hrec
          | true =>
            simp only [eq_self_iff_true, if_true] at h
            cases h
            dsimp only
            by_cases hp1 : pos1 = m1.data.length
            · rw [if_pos hp1]
              conv_rhs => rw [faScan.eq_def]
              dsimp only
              have hpp : pos1 = List.length m.data := by
                rw [← hdata]
                exact hp1
              rw [if_pos hpp]
            · rw [if_neg hp1]
              conv_rhs => rw [faScan.eq_def]
              dsimp only
              have hpp : ¬pos1 = List.length m.data := by
                rw [← hdata]
                exact hp1
              rw [if_neg hpp]
              by_cases hcond : prev.address ≤ a ∧ a < entry1.address ∧ prev.end_sequence = false
              · rw [if_pos hcond, if_pos hcond]
              · rw [if_neg hcond, if_neg hcond]
                rw [ih m1 pos1 regs1 entry1 entry1 a hrec]
                rw [hdata]

theorem faScan_none : ∀ (rows : List (Regs × Nat)) (prev : Regs) (size a : Nat),
    (∀ p ∈ rows, p.1.address ≤ a) → faScan prev rows size a = none := by
  intro rows
  induction rows with
  | nil =>
    intro prev size a _
    rfl
  | cons p rest ih =>
    intro prev size a hall
    obtain ⟨it, pa⟩ := p
    rw [faScan]
    by_cases hpa : pa = size
    · rw [if_pos hpa]
    · rw [if_neg hpa]
      have hit : it.address ≤ a := hall (it, pa) (List.mem_cons_self _ _)
      rw [if_neg (by intro hc; exact absurd hc.2.1 (by omega))]
      exact ih it size a (fun q hq => hall q (List.mem_cons_of_mem _ hq))

theorem faScan_some : ∀ (rows : List (Regs × Nat)) (prev : Regs) (pos0 size a : Nat) (r : Regs),
    faScan prev rows size a = some r →
    ∃ (i : Nat) (p q : Regs × Nat),
      ((prev, pos0) :: rows).get? i = some p ∧ p.1 = r ∧
      ((prev, pos0) :: rows).get? (i + 1) = some q ∧
      r.address ≤ a ∧ a < q.1.address ∧ r.end_sequence = false := by
  intro rows
  induction rows with
  | nil =>
    intro prev pos0 size a r h
    exact Option.noConfusion h
  | cons p rest ih =>
    intro prev pos0 size a r h
    obtain ⟨it, pa⟩ := p
    rw [faScan] at h
    by_cases hpa : pa = size
    · rw [if_pos hpa] at h
      exact Option.noConfusion h
    · rw [if_neg hpa] at h
      by_cases hcond : prev.address ≤ a ∧ a < it.address ∧ prev.end_sequence = false
      · rw [if_pos hcond] at h
        have hr : prev = r := Option.some.inj h
        subst hr
        exact ⟨0, (prev, pos0), (it, pa), rfl, rfl, rfl, hcond.1, hcond.2.1, hcond.2.2⟩
      · rw [if_neg hcond] at h
        obtain ⟨i, p2, q2, hp, hpr, hq, hra, hqa, hes⟩ := ih it pa size a r h
        exact ⟨i + 1, p2, q2, hp, hpr, hq, hra, hqa, hes⟩

end BridgeLemmas

section C10Section

open dwarfpp

/-- C10 (amended): when iteration of the line-number program succeeds with
row list `rows`, `find_address a` returns a row `r` only if `r` is at a
non-final index of `rows`, is not an `end_sequence` row, has `r.address ≤ a`,
and the strictly later row that follows it in iteration order has an
address exceeding `a`; and when every emitted row has address at most `a`
(in particular whenever `a` is at least the maximum row address),
`find_address a` returns the end iterator. -/
theorem C10_find_address (m : Impl) (a : Nat) (mF : Impl) (rows : List (Regs × Nat))
    (hc : collectRowsPos m = .ok (mF, rows)) :
    (∀ r : Regs, find_address m a = .ok (some r) →
      ∃ (i : Nat) (p q : Regs × Nat),
        rows.get? i = some p ∧ p.1 = r ∧ rows.get? (i + 1) = some q ∧
        r.address ≤ a ∧ a < q.1.address ∧ r.end_sequence = false) ∧
    ((∀ p ∈ rows, p.1.address ≤ a) → find_address m a = .ok none) := by
  unfold collectRowsPos at hc
  have hc2 : collectLoop m m.program_offset
      (Regs.reset m.default_is_stmt m.file_index_base)
      (Regs.reset m.default_is_stmt m.file_index_base)
      (m.data.length + 1 + 1) = .ok (mF, rows) := hc
  rw [collectLoop] at hc2
  unfold find_address
  dsimp only
  by_cases hpo : m.program_offset = m.data.length
  · rw [if_pos hpo] at hc2
    cases hc2
    rw [iterNext_at_end _ _ (le_of_eq hpo.symm)]
    dsimp only
    rw [if_pos hpo]
    constructor
    · intro r hr
      exact Option.noConfusion (Except.ok.inj hr)
    · intro _
      rfl
  · rw [if_neg hpo] at hc2
    cases hi : iterNext m m.program_offset
        (Regs.reset m.default_is_stmt m.file_index_base)
        (Regs.reset m.default_is_stmt m.file_index_base) with
    | error e =>
      rw [hi] at hc2
      exact Except.noConfusion hc2
    | ok t =>
      obtain ⟨m1, pos1, regs1, entry1, out⟩ := t
      rw [hi] at hc2
      dsimp only at hc2
      dsimp only
      have hdata : m1.data = m.data := iterNext_data hi
      cases hrec : collectLoop m1 pos1 regs1 entry1 (m.data.length + 1) with
      | error e =>
        rw [hrec] at hc2
        exact Except.noConfusion hc2
      | ok t2 =>
        obtain ⟨mF2, rows2⟩ := t2
        rw [hrec] at hc2
        dsimp only at hc2
        cases out with
        | false =>
          obtain ⟨e1, e2, _e3, _e4, e5⟩ := iterNext_output_false hi
          rw [e1, e2] at hrec
          rw [collect_overshoot (m.data.length + 1) m m.program_offset regs1 entry1 e5 hpo]
            at hrec
          exact Except.noConfusion hrec
        | true =>
          simp only [eq_self_iff_true, if_true] at hc2
          cases hc2
          by_cases hp1 : pos1 = m1.data.length
          · rw [if_pos hp1]
            constructor
            · intro r hr
              exact Option.noConfusion (Except.ok.inj hr)
            · intro _
              rfl
          · rw [if_neg hp1]
            rw [faLoop_eq_faScan (m.data.length + 1) m1 pos1 regs1 entry1 entry1 a hrec]
            constructor
            · intro r hr
              have hscan : faScan entry1 rows2 m1.data.length a = some r := Except.ok.inj hr
              exact faScan_some rows2 entry1 pos1 m1.data.length a r hscan
            · intro hall
              rw [faScan_none rows2 entry1 m1.data.length a
                (fun q hq => hall q (List.mem_cons_of_mem _ hq))]

end C10Section

section C10Extra

open dwarfpp

/-- C10 witness: on the non-monotone table, an address (20) at or above
every row address makes `find_address` return the end iterator. -/
theorem C10_find_address_witness :
    collectRowsPos tblFA =
      .ok ({ tblFA with file_names_complete := true },
        [(⟨5, 0, 1, 1, 0, true, false, false, false, false, 0, 0⟩, 12),
         (⟨10, 0, 1, 1, 0, true, false, false, false, false, 0, 0⟩, 24),
         (⟨7, 0, 1, 1, 0, true, false, false, false, false, 0, 0⟩, 36),
         (⟨7, 0, 1, 1, 0, true, false, true, false, false, 0, 0⟩, 39)]) ∧
    find_address tblFA 20 = .ok none := by
  have h := C10_find_address tblFA 20 { tblFA with file_names_complete := true }
    [(⟨5, 0, 1, 1, 0, true, false, false, false, false, 0, 0⟩, 12),
     (⟨10, 0, 1, 1, 0, true, false, false, false, false, 0, 0⟩, 24),
     (⟨7, 0, 1, 1, 0, true, false, false, false, false, 0, 0⟩, 36),
     (⟨7, 0, 1, 1, 0, true, false, true, false, false, 0, 0⟩, 39)] rfl
  exact ⟨rfl, h.2 (by decide)⟩

/-- C10 counterexample: the rows of `tblFA` are at addresses 5, 10, 7, 7,
so the final row has address 7; for the query address 8 (which is at least
the final row's address) `find_address` nevertheless returns the row at
address 5, not the end iterator, refuting the claimed consequence. -/
theorem C10_counterexample :
    find_address tblFA 8 =
      .ok (some ⟨5, 0, 1, 1, 0, true, false, false, false, false, 0, 0⟩) ∧
    (collectRowsPos tblFA).map (fun p => p.2.map (fun q => q.1.address)) =
      .ok [5, 10, 7, 7] ∧
    (7 : Nat) ≤ 8 ∧
    some (⟨5, 0, 1, 1, 0, true, false, false, false, false, 0, 0⟩ : Regs) ≠ none := by
  refine ⟨rfl, rfl, by norm_num, by simp⟩

end C10Extra
